import Mathlib

/-!
# Verification of the personal-memory-gateway privacy retrieval core

Shallow embedding of the core components of the mcp-personal-memory-gateway
repository: the privacy redaction pipeline (regex-driven), the memory
repository's hybrid-search lexical guardrails, the consent gate, the
answer orchestrator's grounding enforcement, the retrieval controller of
the MCP server, the embedding service's dimension handling, and the
telemetry event ring.

Text is modelled as `List Nat` of Unicode code points (`Str`).  The
JavaScript regular expressions of the source are transcribed into a small
regex AST (`Re`) and executed by a fuel-bounded backtracking matcher with
JavaScript semantics (leftmost match, ordered alternation, greedy/lazy
quantifiers, `\b` word boundaries, the one negative lookbehind the source
uses, capture groups).
-/

set_option autoImplicit false

namespace PMG

/-- Text as a list of Unicode code points. -/
abbrev Str := List Nat

/-- Decode a Lean string literal into code points. -/
def str (s : String) : Str := s.data.map Char.toNat

/-- JavaScript `\s` for the ASCII range: space, tab, LF, VT, FF, CR
(the source never feeds non-ASCII whitespace to these checks). -/
def isWsCode (c : Nat) : Bool := c = 32 || (9 ≤ c && c ≤ 13)

/-- JavaScript `\w`: `[A-Za-z0-9_]`. -/
def isWordCode (c : Nat) : Bool :=
  (48 ≤ c && c ≤ 57) || (65 ≤ c && c ≤ 90) || (97 ≤ c && c ≤ 122) || c = 95

/-- ASCII lowercasing, as `String.prototype.toLowerCase` acts on the
ASCII letters the source manipulates. -/
def toLowerCode (c : Nat) : Nat := if 65 ≤ c && c ≤ 90 then c + 32 else c

def toLowerStr (s : Str) : Str := s.map toLowerCode

/-- `String.prototype.trim`: strip leading and trailing whitespace. -/
def jsTrim (s : Str) : Str :=
  ((s.dropWhile isWsCode).reverse.dropWhile isWsCode).reverse

/-- Worker for `collapseWs`: `inRun` records whether the previous
character belonged to the whitespace run being collapsed. -/
def collapseWsGo : Bool → Str → Str
  | _, [] => []
  | inRun, c :: rest =>
    if isWsCode c then
      if inRun then collapseWsGo true rest
      else 32 :: collapseWsGo true rest
    else c :: collapseWsGo false rest

/-- `text.replace(/\s+/g, " ")`: collapse each whitespace run to one space. -/
def collapseWs (s : Str) : Str := collapseWsGo false s

/-- Substring test: does `needle` occur contiguously inside `hay`
(`String.prototype.includes`)? -/
def strIncludes (hay needle : Str) : Bool := decide (needle <:+: hay)

/-! ## Regex AST and backtracking matcher

Transcription target for the JavaScript regular expressions in the
source.  `cls` is a character class given by inclusive code ranges,
`rep lo hi lazy r` is `r{lo,hi}` (`hi = none` meaning unbounded) with
greedy or lazy semantics, `grp i r` is the `i`-th capture group,
`wordB` is `\b` and `notWordBehind` is the negative lookbehind
`(?<!\w)` used by the currency pattern. -/

inductive Re where
  | eps
  | cls (neg : Bool) (ranges : List (Nat × Nat))
  | seq (a b : Re)
  | alt (a b : Re)
  | rep (lo : Nat) (hi : Option Nat) (lazyQ : Bool) (a : Re)
  | grp (idx : Nat) (a : Re)
  | wordB
  | notWordBehind
  deriving Repr

namespace Re

/-- One character from an inclusive range list. -/
def rng (a b : Nat) : Re := .cls false [(a, b)]

/-- One literal character. -/
def ch (c : Nat) : Re := .cls false [(c, c)]

/-- Literal string. -/
def lit (s : Str) : Re := s.foldr (fun c acc => .seq (ch c) acc) .eps

/-- Case-insensitive literal (for `/i`-flagged patterns): each ASCII
letter accepts both cases. -/
def litCI (s : Str) : Re :=
  s.foldr
    (fun c acc =>
      let c' := toLowerCode c
      if 97 ≤ c' && c' ≤ 122 then .seq (.cls false [(c', c'), (c' - 32, c' - 32)]) acc
      else .seq (ch c) acc)
    .eps

/-- `r?` (greedy). -/
def opt (a : Re) : Re := .rep 0 (some 1) false a

/-- `r+` (greedy). -/
def plus (a : Re) : Re := .rep 1 none false a

/-- `r*` (greedy). -/
def star (a : Re) : Re := .rep 0 none false a

end Re

/-- Capture records `(group index, start, stop)`, most recent first. -/
abbrev Caps := List (Nat × Nat × Nat)

def charIn (ranges : List (Nat × Nat)) (c : Nat) : Bool :=
  ranges.any (fun r => r.1 ≤ c && c ≤ r.2)

/-- Backtracking matcher in continuation-passing style.  `reMatch fuel s
re pos caps k` tries to match `re` in `s` starting at `pos`; on each
successful parse it calls `k` with the end position and captures, trying
alternatives in JavaScript order (leftmost alternation first, greedy
quantifiers longest-first, lazy shortest-first) until `k` succeeds.
Repetition stops on empty iterations, as JavaScript quantifiers do.
`fuel` bounds recursion depth; every recursive call decreases it. -/
def reMatch : Nat → Str → Re → Nat → Caps → (Nat → Caps → Option (Nat × Caps)) →
    Option (Nat × Caps)
  | 0, _, _, _, _, _ => none
  | Nat.succ fuel, s, re, pos, caps, k =>
    match re with
    | .eps => k pos caps
    | .cls neg ranges =>
      match s.get? pos with
      | some c => if charIn ranges c ≠ neg then k (pos + 1) caps else none
      | none => none
    | .seq a b =>
      reMatch fuel s a pos caps (fun p cs => reMatch fuel s b p cs k)
    | .alt a b =>
      match reMatch fuel s a pos caps k with
      | some r => some r
      | none => reMatch fuel s b pos caps k
    | .rep lo hi lazyQ a =>
      match lo with
      | Nat.succ lo' =>
        reMatch fuel s a pos caps (fun p cs =>
          if p = pos then none
          else reMatch fuel s (.rep lo' (hi.map (· - 1)) lazyQ a) p cs k)
      | 0 =>
        match hi with
        | some 0 => k pos caps
        | _ =>
          let once : Unit → Option (Nat × Caps) := fun _ =>
            reMatch fuel s a pos caps (fun p cs =>
              if p = pos then none
              else reMatch fuel s (.rep 0 (hi.map (· - 1)) lazyQ a) p cs k)
          if lazyQ then
            match k pos caps with
            | some r => some r
            | none => once ()
          else
            match once () with
            | some r => some r
            | none => k pos caps
    | .grp idx a =>
      reMatch fuel s a pos caps (fun p cs => k p ((idx, pos, p) :: cs))
    | .wordB =>
      let before :=
        match pos with
        | 0 => false
        | Nat.succ q => (s.get? q).elim false isWordCode
      let after := (s.get? pos).elim false isWordCode
      if before ≠ after then k pos caps else none
    | .notWordBehind =>
      let before :=
        match pos with
        | 0 => false
        | Nat.succ q => (s.get? q).elim false isWordCode
      if before then none else k pos caps

/-- Fuel that always suffices for the patterns in this file: every
quantifier iteration consumes at least one character, so recursion depth
is bounded by pattern size times input length. -/
def fuelFor (s : Str) : Nat := (s.length + 2) * 128

/-- Match `re` at exactly position `pos`, returning end position and
captures of the first (JavaScript-preferred) parse. -/
def matchAt (s : Str) (re : Re) (pos : Nat) : Option (Nat × Caps) :=
  reMatch (fuelFor s) s re pos [] (fun p cs => some (p, cs))

/-- `RegExp.prototype.test`: does `re` match anywhere in `s`? -/
def reTest (re : Re) (s : Str) : Bool :=
  (List.range (s.length + 1)).any (fun pos => (matchAt s re pos).isSome)

/-- Substring `[start, stop)` of `s`. -/
def slice (s : Str) (start stop : Nat) : Str := (s.take stop).drop start

/-- Resolve capture group `i` (1-based) from a capture list: first
(most recent) record wins; unset groups resolve to the empty string,
as the source maps `String(entry ?? "")`. -/
def capStr (s : Str) (caps : Caps) (i : Nat) : Str :=
  match caps.find? (fun c => c.1 = i) with
  | some (_, a, b) => slice s a b
  | none => []

/-- Replacement: literal, or function of the matched text and the
capture strings (groups `1..n`). -/
inductive Repl where
  | lit (out : Str)
  | fn (f : Str → List Str → Str)

def Repl.apply (r : Repl) (s : Str) (m : Str) (caps : Caps) (numGroups : Nat) : Str :=
  match r with
  | .lit out => out
  | .fn f => f m ((List.range numGroups).map (fun i => capStr s caps (i + 1)))

/-- `String.prototype.replace` with a global regex and a replacement,
also counting matches.  Scans left to right; at each position tries the
regex, emits the replacement on a match and resumes after it, otherwise
copies one character.  Empty matches are treated as failures (none of
the transcribed patterns can match the empty string).  Returns the
rewritten string, the match count, and the list of
`(matched-or-captured sensitive value, replacement)` pairs in match
order. -/
def replaceScan (s : Str) (re : Re) (repl : Repl) (numGroups : Nat)
    (captureIndex : Option Nat) :
    Nat → Nat → (Str × Nat × List (Str × Str))
  | 0, _ => ([], 0, [])
  | Nat.succ fuel, pos =>
    if pos < s.length then
      match matchAt s re pos with
      | some (stop, caps) =>
        if pos < stop then
          let m := slice s pos stop
          let out := repl.apply s m caps numGroups
          let sensitive :=
            match captureIndex with
            | some ci => let c := capStr s caps ci; if c = [] then m else c
            | none => m
          let rest := replaceScan s re repl numGroups captureIndex fuel stop
          (out ++ rest.1, rest.2.1 + 1, (sensitive, out) :: rest.2.2)
        else
          let rest := replaceScan s re repl numGroups captureIndex fuel (pos + 1)
          ((s.get? pos).elim rest.1 (· :: rest.1), rest.2.1, rest.2.2)
      | none =>
        let rest := replaceScan s re repl numGroups captureIndex fuel (pos + 1)
        ((s.get? pos).elim rest.1 (· :: rest.1), rest.2.1, rest.2.2)
    else
      ([], 0, [])

/-- Run a global replace over the whole string. -/
def reReplace (s : Str) (re : Re) (repl : Repl) (numGroups : Nat)
    (captureIndex : Option Nat) : Str × Nat × List (Str × Str) :=
  replaceScan s re repl numGroups captureIndex (s.length + 1) 0

/-! ## Privacy redaction pipeline

Transcribed from `privacy-redaction-pipeline.ts`: an ordered list of
regex patterns, each with a severity and a literal or capture-driven
replacement, applied as successive global replaces; then risk scoring
from the counts and confidence scoring from residual sensitive shapes
in the cleaned text. -/

inductive RiskLevel where
  | LOW
  | HIGH
  deriving DecidableEq, Repr

inductive RedactionConfidence where
  | HIGH
  | LOW
  deriving DecidableEq, Repr

inductive Severity where
  | low
  | medium
  | high
  deriving DecidableEq, Repr

structure Pattern where
  name : String
  re : Re
  severity : Severity
  captureIndex : Option Nat := none
  numGroups : Nat := 0
  repl : Repl

/-- Right-nested alternation preserving JavaScript left-to-right order. -/
def Re.alts : List Re → Re
  | [] => .eps
  | [r] => r
  | r :: rest => .alt r (Re.alts rest)

/-- `r{n}`. -/
def Re.rexact (n : Nat) (a : Re) : Re := .rep n (some n) false a

/-- `r{lo,}` (greedy). -/
def Re.atLeast (lo : Nat) (a : Re) : Re := .rep lo none false a

namespace Pat

/-- `\d`. -/
def digit : Re := .cls false [(48, 57)]

/-- `[a-zA-Z]`. -/
def alpha : Re := .cls false [(97, 122), (65, 90)]

/-- `[a-zA-Z0-9]`. -/
def alnum : Re := .cls false [(97, 122), (65, 90), (48, 57)]

/-- `\s` as a class. -/
def wsCls : Re := .cls false [(32, 32), (9, 13)]

/-- `[-.\s]`, the phone separator class. -/
def phoneSep : Re := .cls false [(45, 45), (46, 46), (32, 32), (9, 13)]

/-- `[:=]`. -/
def colonEq : Re := .cls false [(58, 58), (61, 61)]

/-- `['"]`. -/
def quote : Re := .cls false [(39, 39), (34, 34)]

/-- `/[a-zA-Z0-9._%+-]+@[a-zA-Z0-9.-]+\.[a-zA-Z]{2,}/gi` -/
def emailRe : Re :=
  .seq (.plus (.cls false [(97, 122), (65, 90), (48, 57), (46, 46), (95, 95), (37, 37), (43, 43), (45, 45)]))
    (.seq (.ch 64)
      (.seq (.plus (.cls false [(97, 122), (65, 90), (48, 57), (46, 46), (45, 45)]))
        (.seq (.ch 46) (Re.atLeast 2 alpha))))

/-- `/\b(?:\+?\d{1,3}[-.\s]?)?(?:\(?\d{3}\)?[-.\s]?\d{3}[-.\s]?\d{4}|\d{10})\b/g` -/
def phoneRe : Re :=
  .seq .wordB
    (.seq (.opt (.seq (.opt (.ch 43)) (.seq (.rep 1 (some 3) false digit) (.opt phoneSep))))
      (.seq
        (.alt
          (.seq (.opt (.ch 40))
            (.seq (Re.rexact 3 digit)
              (.seq (.opt (.ch 41))
                (.seq (.opt phoneSep)
                  (.seq (Re.rexact 3 digit)
                    (.seq (.opt phoneSep) (Re.rexact 4 digit)))))))
          (Re.rexact 10 digit))
        .wordB))

/-- `/\b\d{3}-\d{2}-\d{4}\b/g` -/
def ssnRe : Re :=
  .seq .wordB
    (.seq (Re.rexact 3 digit)
      (.seq (.ch 45)
        (.seq (Re.rexact 2 digit)
          (.seq (.ch 45) (.seq (Re.rexact 4 digit) .wordB)))))

/-- `/\b(?:\d[ -]*?){13,16}\b/g` -/
def creditCardRe : Re :=
  .seq .wordB
    (.seq (.rep 13 (some 16) false (.seq digit (.rep 0 none true (.cls false [(32, 32), (45, 45)]))))
      .wordB)

/-- `/(?<!\w)(?:\$|₹|€|£)\s?\d+(?:,\d{3})*(?:\.\d+)?(?:[kKmMbB])?\b/g` -/
def financialRe : Re :=
  .seq .notWordBehind
    (.seq (.cls false [(36, 36), (8377, 8377), (8364, 8364), (163, 163)])
      (.seq (.opt wsCls)
        (.seq (.plus digit)
          (.seq (.star (.seq (.ch 44) (Re.rexact 3 digit)))
            (.seq (.opt (.seq (.ch 46) (.plus digit)))
              (.seq (.opt (.cls false [(107, 107), (75, 75), (109, 109), (77, 77), (98, 98), (66, 66)]))
                .wordB))))))

/-- `/\b(?:sk|pk)_(?:live|test)_[a-zA-Z0-9]{16,}\b|\bsk-[a-zA-Z0-9]{20,}\b/g` -/
def openaiKeyRe : Re :=
  .alt
    (.seq .wordB
      (.seq (.alt (Re.lit (str "sk")) (Re.lit (str "pk")))
        (.seq (.ch 95)
          (.seq (.alt (Re.lit (str "live")) (Re.lit (str "test")))
            (.seq (.ch 95) (.seq (Re.atLeast 16 alnum) .wordB))))))
    (.seq .wordB
      (.seq (Re.lit (str "sk"))
        (.seq (.ch 45) (.seq (Re.atLeast 20 alnum) .wordB))))

/-- `/\bAKIA[0-9A-Z]{16}\b/g` -/
def awsKeyRe : Re :=
  .seq .wordB
    (.seq (Re.lit (str "AKIA"))
      (.seq (Re.rexact 16 (.cls false [(48, 57), (65, 90)])) .wordB))

/-- `/\beyJ[a-zA-Z0-9_-]+\.[a-zA-Z0-9_-]+\.[a-zA-Z0-9_-]+\b/g` -/
def jwtRe : Re :=
  let b64 : Re := .cls false [(97, 122), (65, 90), (48, 57), (95, 95), (45, 45)]
  .seq .wordB
    (.seq (Re.lit (str "eyJ"))
      (.seq (.plus b64)
        (.seq (.ch 46)
          (.seq (.plus b64) (.seq (.ch 46) (.seq (.plus b64) .wordB))))))

/-- `[_\s-]`, the label separator class of the secret-assignment pattern. -/
def labelSep : Re := .cls false [(95, 95), (32, 32), (9, 13), (45, 45)]

/-- `[a-zA-Z0-9_\-]`, the secret-value class. -/
def secretVal : Re := .cls false [(97, 122), (65, 90), (48, 57), (95, 95), (45, 45)]

/-- `/\b(api[_\s-]*key|token|secret|password|pwd|access[_\s-]*key)\b(\s*[:=]\s*)([a-zA-Z0-9_\-]{8,})\b/gi` -/
def genericSecretRe : Re :=
  .seq .wordB
    (.seq (.grp 1 (Re.alts
        [.seq (Re.litCI (str "api")) (.seq (.star labelSep) (Re.litCI (str "key"))),
         Re.litCI (str "token"),
         Re.litCI (str "secret"),
         Re.litCI (str "password"),
         Re.litCI (str "pwd"),
         .seq (Re.litCI (str "access")) (.seq (.star labelSep) (Re.litCI (str "key")))]))
      (.seq .wordB
        (.seq (.grp 2 (.seq (.star wsCls) (.seq colonEq (.star wsCls))))
          (.seq (.grp 3 (Re.atLeast 8 secretVal)) .wordB))))

/-- `/\b(account|acct)\b(\s*[:=]\s*)(\d{6,})\b/gi` -/
def bankAccountRe : Re :=
  .seq .wordB
    (.seq (.grp 1 (.alt (Re.litCI (str "account")) (Re.litCI (str "acct"))))
      (.seq .wordB
        (.seq (.grp 2 (.seq (.star wsCls) (.seq colonEq (.star wsCls))))
          (.seq (.grp 3 (Re.atLeast 6 digit)) .wordB))))

/-- `/\b(project\s*code)\b(\s*[:=]\s*['"]?)([A-Z]-\d{3,})(['"]?)/gi`
(the `/i` flag makes `[A-Z]` match both cases). -/
def projectCodeRe : Re :=
  .seq .wordB
    (.seq (.grp 1 (.seq (Re.litCI (str "project")) (.seq (.star wsCls) (Re.litCI (str "code")))))
      (.seq .wordB
        (.seq (.grp 2 (.seq (.star wsCls) (.seq colonEq (.seq (.star wsCls) (.opt quote)))))
          (.seq (.grp 3 (.seq (.cls false [(65, 90), (97, 122)]) (.seq (.ch 45) (Re.atLeast 3 digit))))
            (.grp 4 (.opt quote))))))

end Pat

/-- `resolveSecretToken`: label-aware placeholder selection. -/
def resolveSecretToken (secretLabel : Str) : Str :=
  let label := toLowerStr (jsTrim secretLabel)
  if strIncludes label (str "password") || label = str "pwd" then str "[REDACTED_PASSWORD]"
  else if strIncludes label (str "aws") then str "[REDACTED_AWS_ACCESS_KEY]"
  else if strIncludes label (str "secret") then str "[REDACTED_SECRET]"
  else str "[REDACTED_API_KEY]"

/-- The ordered pattern list `PATTERNS`. -/
def PATTERNS : List Pattern :=
  [{ name := "email", re := Pat.emailRe, severity := .medium,
     repl := .lit (str "[REDACTED_EMAIL]") },
   { name := "phone", re := Pat.phoneRe, severity := .medium,
     repl := .lit (str "[REDACTED_PHONE]") },
   { name := "ssn", re := Pat.ssnRe, severity := .high,
     repl := .lit (str "[REDACTED_SSN]") },
   { name := "credit_card", re := Pat.creditCardRe, severity := .high,
     repl := .lit (str "[REDACTED_CREDIT_CARD]") },
   { name := "financial_amount", re := Pat.financialRe, severity := .medium,
     repl := .lit (str "[REDACTED_FINANCIAL_AMOUNT]") },
   { name := "openai_or_stripe_key", re := Pat.openaiKeyRe, severity := .high,
     repl := .lit (str "[REDACTED_API_KEY]") },
   { name := "aws_access_key", re := Pat.awsKeyRe, severity := .high,
     repl := .lit (str "[REDACTED_AWS_ACCESS_KEY]") },
   { name := "jwt", re := Pat.jwtRe, severity := .high,
     repl := .lit (str "[REDACTED_JWT]") },
   { name := "generic_secret_assignment", re := Pat.genericSecretRe, severity := .high,
     captureIndex := some 3, numGroups := 3,
     repl := .fn (fun _m captures =>
       let label := (captures.get? 0).getD (str "secret")
       let separator := (captures.get? 1).getD (str ": ")
       label ++ separator ++ resolveSecretToken label) },
   { name := "bank_account", re := Pat.bankAccountRe, severity := .high,
     captureIndex := some 3, numGroups := 3,
     repl := .fn (fun _m captures =>
       let label := (captures.get? 0).getD (str "account")
       let separator := (captures.get? 1).getD (str ": ")
       label ++ separator ++ str "[REDACTED_ACCOUNT_NUMBER]") },
   { name := "project_code", re := Pat.projectCodeRe, severity := .high,
     captureIndex := some 3, numGroups := 4,
     repl := .fn (fun _m captures =>
       let label := (captures.get? 0).getD (str "project code")
       let separator := (captures.get? 1).getD (str ": ")
       let suffix := (captures.get? 3).getD []
       label ++ separator ++ str "[REDACTED_PROJECT_CODE]" ++ suffix) }]

/-- `computeRisk`: any high-severity hit, or five total, escalates. -/
def computeRisk (redactionCount highRiskCount : Nat) : RiskLevel :=
  if 1 ≤ highRiskCount || 5 ≤ redactionCount then .HIGH else .LOW

/-- The four unresolved-sensitive-shape regexes of `computeConfidence`. -/
def unresolvedSensitivePatterns : List Re :=
  [Pat.ssnRe,
   Pat.creditCardRe,
   Pat.awsKeyRe,
   .seq .wordB
     (.seq (Re.alts
         [Re.litCI (str "password"),
          Re.litCI (str "pwd"),
          .seq (Re.litCI (str "api")) (.seq (.star Pat.labelSep) (Re.litCI (str "key"))),
          Re.litCI (str "token"),
          Re.litCI (str "secret")])
       (.seq .wordB
         (.seq (.star Pat.wsCls)
           (.seq Pat.colonEq (.seq (.star Pat.wsCls) (Re.atLeast 8 Pat.secretVal))))))]

/-- `computeConfidence`: LOW when any sensitive shape survives. -/
def computeConfidence (cleanedText : Str) : RedactionConfidence :=
  if unresolvedSensitivePatterns.any (fun re => reTest re cleanedText) then .LOW else .HIGH

/-- Assignment `map[key] = value` on an insertion-ordered association
list, as a JavaScript object behaves. -/
def assocSet : List (Str × Str) → Str → Str → List (Str × Str)
  | [], k, v => [(k, v)]
  | (k', v') :: rest, k, v =>
    if k' = k then (k, v) :: rest else (k', v') :: assocSet rest k v

structure PipelineResult where
  cleanedText : Str
  redactionCount : Nat
  riskLevel : RiskLevel
  confidence : RedactionConfidence
  syntheticMap : List (Str × Str)
  deriving Repr

/-- One pattern of the pipeline fold: replace, add counts, record the
synthetic map entries. -/
def pipelineStep (acc : Str × Nat × Nat × List (Str × Str)) (p : Pattern) :
    Str × Nat × Nat × List (Str × Str) :=
  let r := reReplace acc.1 p.re p.repl p.numGroups p.captureIndex
  (r.1, acc.2.1 + r.2.1,
   acc.2.2.1 + (if p.severity = .high then r.2.1 else 0),
   r.2.2.foldl (fun m' pr => assocSet m' pr.1 pr.2) acc.2.2.2)

/-- The pattern fold of `runPrivacyPipeline`: cleaned text, total
count, high-severity count and synthetic map after all patterns. -/
def pipelineFold (text : Str) : Str × Nat × Nat × List (Str × Str) :=
  PATTERNS.foldl pipelineStep (text, 0, 0, [])

/-- `runPrivacyPipeline`. -/
def runPrivacyPipeline (text : Str) : PipelineResult :=
  let folded := pipelineFold text
  { cleanedText := folded.1
    redactionCount := folded.2.1
    riskLevel := computeRisk folded.2.1 folded.2.2.1
    confidence := computeConfidence folded.1
    syntheticMap := folded.2.2.2 }

/-- Assignment `m[k] = v` on an insertion-ordered association list
(JavaScript object / `Map.set` behaviour: replace in place, else append). -/
def alistSet {B : Type} : List (Str × B) → Str → B → List (Str × B)
  | [], k, v => [(k, v)]
  | (k', v') :: rest, k, v =>
    if k' = k then (k, v) :: rest else (k', v') :: alistSet rest k v

/-- Lookup in an association list (`Map.get` / object indexing). -/
def alistGet {B : Type} (m : List (Str × B)) (k : Str) : Option B :=
  (m.find? (fun e => e.1 = k)).map (fun e => e.2)

/-- `Map.delete`. -/
def alistDelete {B : Type} (m : List (Str × B)) (k : Str) : List (Str × B) :=
  m.filter (fun e => e.1 ≠ k)

/-- Decimal digits of a natural number. -/
def natStr (n : Nat) : Str := (Nat.toDigits 10 n).map Char.toNat

/-- `Array.prototype.join(sep)`. -/
def joinWith (sep : Str) : List Str → Str
  | [] => []
  | [x] => x
  | x :: rest => x ++ sep ++ joinWith sep rest

/-! ## Embedding service

Transcribed from `embedding-service.ts`.  I/O-dependent ingredients are
abstracted: the SHA-256 digest of the local provider is an opaque
function `sha256`, the remote provider's HTTP response vector is an
opaque function `remote`, and the MD5 cache key is modelled by its
preimage `provider|model|text` (MD5 is treated as injective).  Vector
entries are `Float`, as in the source; none of the theorems below
depend on float values, only on vector lengths and cache structure. -/

inductive EmbeddingProvider where
  | openai
  | gemini
  | local
  deriving DecidableEq, Repr

def EmbeddingProvider.tag : EmbeddingProvider → Str
  | .openai => str "openai"
  | .gemini => str "gemini"
  | .local => str "local"

/-- Environment of one `generateEmbedding` call: resolved provider and
model, the resolved target dimension, and the abstracted digest /
remote-response functions. -/
structure EmbedConfig where
  provider : EmbeddingProvider
  model : Str
  targetDim : Int
  sha256 : Str → List Nat
  remote : Str → List Float

/-- The on-disk embedding cache, keyed by the composite cache key. -/
abbrev EmbedCache := List (Str × List Float)

/-- `resolveTargetDimension`: positive configured value, else 768.
(`Number.isFinite` plus `Math.floor` on an integer-valued parse is
modelled by an integer parameter, `none` standing for NaN.) -/
def resolveTargetDimension (parsed : Option Int) : Int :=
  match parsed with
  | some n => if 0 < n then n else 768
  | none => 768

/-- `alignVectorDimension`: trim or zero-pad to the target dimension. -/
def alignVectorDimension (vector : List Float) (targetDimension : Int) : List Float :=
  if targetDimension ≤ 0 then vector
  else if (vector.length : Int) = targetDimension then vector
  else if targetDimension < (vector.length : Int) then vector.take targetDimension.toNat
  else vector ++ List.replicate (targetDimension.toNat - vector.length) 0

/-- Unit normalization of the local hash vector. -/
def normalize (vector : List Float) : List Float :=
  let norm := Float.sqrt (vector.foldl (fun sum val => sum + val * val) 0)
  if norm == 0 then vector else vector.map (fun val => val / norm)

/-- `generateLocalEmbedding`: deterministic hash-based vector. -/
def generateLocalEmbedding (sha256 : Str → List Nat) (text : Str) (dimension : Nat) :
    List Float :=
  let digest := sha256 text
  let vector := (List.range dimension).map (fun i =>
    let base := (digest.get? (i % digest.length)).getD 0
    let mixed := (base + i * 31) % 256
    Float.ofNat mixed / 127.5 - 1)
  normalize vector

/-- `cacheKeyFor`: the MD5 preimage `provider|model|text`. -/
def cacheKeyFor (text : Str) (provider : EmbeddingProvider) (model : Str) : Str :=
  provider.tag ++ [124] ++ model ++ [124] ++ text

/-- `generateEmbedding`: normalize, cache lookup (a hit is returned
as stored, without re-alignment), provider call, dimension alignment,
cache write.  Returns the vector and the updated cache. -/
def generateEmbedding (cfg : EmbedConfig) (cache : EmbedCache) (text : Str) :
    List Float × EmbedCache :=
  let normalizedText := collapseWs (jsTrim text)
  if normalizedText = [] then ([], cache)
  else
    let key := cacheKeyFor normalizedText cfg.provider cfg.model
    match alistGet cache key with
    | some v => (v, cache)
    | none =>
      let vector :=
        match cfg.provider with
        | .gemini => cfg.remote normalizedText
        | .local => generateLocalEmbedding cfg.sha256 normalizedText cfg.targetDim.toNat
        | .openai => cfg.remote normalizedText
      let aligned := alignVectorDimension vector cfg.targetDim
      (aligned, alistSet cache key aligned)

/-! ## Memory repository

Transcribed from `memory-repository.ts`.  LanceDB vector retrieval is
abstracted: `searchTable` takes the raw row list the vector search
returned for the table (`query.toArray()`), and applies the source's
row mapping, lexical signals and rank boosts.  Scores are `ℚ`
(the source computes `_distance * 0.5`-style products on doubles;
only comparisons and membership matter to the claims). -/

namespace Memory

structure MemoryRecord where
  id : Str
  text : Str
  vector : List Float
  createdAt : Str
  category : Option Str := none
  source : Option Str := none

/-- A raw row of a LanceDB vector search, with its `_distance`. -/
structure RawRow where
  text : Str
  category : Option Str := none
  source : Option Str := none
  distance : Option ℚ := none

structure SearchResult where
  text : Str
  score : ℚ
  source : String
  category : Option Str
  keywordHits : Nat
  phraseMatch : Bool

inductive MemoryQueryScope where
  | hybrid
  | facts_only
  | documents_only
  deriving DecidableEq, Repr

/-- `STOP_WORDS`. -/
def STOP_WORDS : List Str :=
  [str "a", str "an", str "and", str "are", str "do", str "for", str "i",
   str "in", str "is", str "me", str "my", str "of", str "on", str "the",
   str "to", str "what", str "you", str "your"]

/-- `normalizeLexicalText`: lowercase, map non-`[a-z0-9\s]` to spaces,
collapse whitespace, trim. -/
def normalizeLexicalText (text : Str) : Str :=
  jsTrim (collapseWs ((toLowerStr text).map (fun c =>
    if (97 ≤ c && c ≤ 122) || (48 ≤ c && c ≤ 57) || isWsCode c then c else 32)))

/-- Split on whitespace runs, dropping empty pieces (the empty pieces a
JavaScript `split(/\s+/)` can produce are removed by the length filter
of every caller). -/
def splitWs (s : Str) : List Str :=
  ((s.splitOn 32).map (fun piece => piece.filter (fun c => ¬ isWsCode c))).filter
    (fun piece => piece ≠ [])

/-- `tokenizeQuery`: normalized tokens of length ≥ 2 that are not stop
words. -/
def tokenizeQuery (text : Str) : List Str :=
  (splitWs (normalizeLexicalText text)).filter
    (fun token => 2 ≤ token.length && ¬ STOP_WORDS.contains token)

/-- Insert into a JavaScript `Set`-like list: append if not present. -/
def addUnique (l : List Str) (x : Str) : List Str :=
  if x ∈ l then l else l ++ [x]

/-- `expandTokenVariants`: the token plus light morphological
strippings, deduplicated in insertion order, filtered to length ≥ 2. -/
def expandTokenVariants (token : Str) : List Str :=
  let n := token.length
  let variants := [token]
  let variants :=
    if (str "ies").isSuffixOf token && 4 < n then
      addUnique variants (token.take (n - 3) ++ [121]) else variants
  let variants :=
    if (str "ences").isSuffixOf token && 7 < n then
      addUnique variants (token.take (n - 5)) else variants
  let variants :=
    if (str "ence").isSuffixOf token && 6 < n then
      addUnique variants (token.take (n - 4)) else variants
  let variants :=
    if (str "es").isSuffixOf token && 4 < n then
      addUnique variants (token.take (n - 2)) else variants
  let variants :=
    if (str "s").isSuffixOf token && 3 < n then
      addUnique variants (token.take (n - 1)) else variants
  let variants :=
    if (str "ing").isSuffixOf token && 5 < n then
      addUnique variants (token.take (n - 3)) else variants
  let variants :=
    if (str "ed").isSuffixOf token && 4 < n then
      addUnique variants (token.take (n - 2)) else variants
  variants.filter (fun variant => 2 ≤ variant.length)

/-- `countKeywordHits`: one hit per query token any of whose variants
occurs as a substring of the normalized text. -/
def countKeywordHits (text : Str) (tokens : List Str) : Nat :=
  if tokens = [] then 0
  else
    let lower := normalizeLexicalText text
    tokens.foldl (fun hits token =>
      if (expandTokenVariants token).any (fun variant => strIncludes lower variant) then
        hits + 1
      else hits) 0

end Memory

/-! Personal-intent detection, defined identically in
`memory-repository.ts` and `archestra-orchestrator.ts`; transcribed once
and used by both models. -/

inductive PersonalIntent where
  | name
  | phone
  | email
  deriving DecidableEq, Repr

namespace Intent

/-- `/\bname\b/`. -/
def nameWordRe : Re := .seq .wordB (.seq (Re.lit (str "name")) .wordB)

/-- `/\b(phone|mobile|contact)\b/`. -/
def phoneWordRe : Re :=
  .seq .wordB
    (.seq (.grp 1 (Re.alts [Re.lit (str "phone"), Re.lit (str "mobile"), Re.lit (str "contact")]))
      .wordB)

/-- `/\bemail\b/`. -/
def emailWordRe : Re := .seq .wordB (.seq (Re.lit (str "email")) .wordB)

/-- `/\b[A-Z][a-z]{1,}(?:\s+[A-Z][a-z]{1,})+\b/`: title-case names. -/
def titleCaseRe : Re :=
  .seq .wordB
    (.seq (.cls false [(65, 90)])
      (.seq (.plus (.cls false [(97, 122)]))
        (.seq (.plus (.seq (.plus Pat.wsCls)
            (.seq (.cls false [(65, 90)]) (.plus (.cls false [(97, 122)])))))
          .wordB)))

/-- `/\b[A-Z]{2,}(?:\s+[A-Z]{2,})+\b/`: all-caps names. -/
def upperCaseRe : Re :=
  .seq .wordB
    (.seq (Re.atLeast 2 (.cls false [(65, 90)]))
      (.seq (.plus (.seq (.plus Pat.wsCls) (Re.atLeast 2 (.cls false [(65, 90)]))))
        .wordB))

/-- `/\+?\d[\d\s\-()]{7,}\d/`: phone-like digit runs. -/
def phoneLikeRe : Re :=
  .seq (.opt (.ch 43))
    (.seq Pat.digit
      (.seq (Re.atLeast 7 (.cls false [(48, 57), (32, 32), (9, 13), (45, 45), (40, 40), (41, 41)]))
        Pat.digit))

/-- `/\b[A-Za-z0-9._%+-]+@[A-Za-z0-9.-]+\.[A-Za-z]{2,}\b/`. -/
def emailLikeRe : Re := .seq .wordB (.seq Pat.emailRe .wordB)

end Intent

namespace Memory

/-- `detectPersonalIntent`. -/
def detectPersonalIntent (query : Str) : Option PersonalIntent :=
  let normalized := toLowerStr query
  if reTest Intent.nameWordRe normalized then some .name
  else if reTest Intent.phoneWordRe normalized then some .phone
  else if reTest Intent.emailWordRe normalized then some .email
  else none

/-- `isLikelyNameText`. -/
def isLikelyNameText (text : Str) : Bool :=
  reTest Intent.titleCaseRe text || reTest Intent.upperCaseRe text

/-- `matchesPersonalIntent`. -/
def matchesPersonalIntent (text : Str) (intent : PersonalIntent) : Bool :=
  match intent with
  | .name => isLikelyNameText text
  | .phone => reTest Intent.phoneLikeRe text
  | .email => reTest Intent.emailLikeRe text

/-- `resolveMemoryQueryScope` from the raw environment value. -/
def resolveMemoryQueryScope (envValue : Option Str) : MemoryQueryScope :=
  let raw := toLowerStr (jsTrim (envValue.getD (str "hybrid")))
  if raw = str "facts_only" || raw = str "user_facts_only" || raw = str "facts" then
    .facts_only
  else if raw = str "documents_only" || raw = str "docs_only" || raw = str "documents" then
    .documents_only
  else .hybrid

/-- `isStrictQueryMatchEnabled` from the raw environment value. -/
def isStrictQueryMatchEnabled (envValue : Option Str) : Bool :=
  let raw := toLowerStr (jsTrim (envValue.getD (str "1")))
  raw ≠ str "0" && raw ≠ str "false" && raw ≠ str "no"

/-- `searchTable` on the raw rows a vector search returned: map rows to
search results with lexical signals, then apply rank boosts. -/
def searchTable (tableName : String) (results : List RawRow) (filterText : Str) :
    List SearchResult :=
  let normalizedFilter := normalizeLexicalText filterText
  let filterTokens := tokenizeQuery normalizedFilter
  let mapped := results.map (fun r =>
    let lexicalText :=
      joinWith (str " ")
        (([some r.text, r.category, r.source].filterMap id).filter
          (fun value => (jsTrim value).length > 0))
    let normalizedLexicalText := normalizeLexicalText lexicalText
    { text := r.text
      score := r.distance.getD 0
      source := tableName
      category := r.category
      keywordHits := countKeywordHits normalizedLexicalText filterTokens
      phraseMatch :=
        normalizedFilter.length > 0 && strIncludes normalizedLexicalText normalizedFilter
      : SearchResult })
  if normalizedFilter ≠ [] then
    mapped.map (fun r =>
      if r.phraseMatch then
        { r with score := max 0 (r.score * (1 / 2)) }
      else if r.keywordHits > 0 then
        let multiplier := max (6 / 10) (1 - (r.keywordHits : ℚ) * (1 / 10))
        { r with score := max 0 (r.score * multiplier) }
      else r)
  else mapped

/-- Stable insertion into a score-sorted list: the new element goes
before the first strictly-greater-or-equal score, keeping earlier
elements of equal score first. -/
def insertByScore (x : SearchResult) : List SearchResult → List SearchResult
  | [] => [x]
  | y :: rest =>
    if x.score ≤ y.score then x :: y :: rest else y :: insertByScore x rest

/-- Stable ascending sort by score
(`all.sort((a, b) => a.score - b.score)`, which is stable). -/
def sortByScore : List SearchResult → List SearchResult
  | [] => []
  | x :: rest => insertByScore x (sortByScore rest)

/-- The dedupe-and-truncate loop of `searchMemory`. -/
def topKLoop : List SearchResult → List Str → List Str → Nat → List Str
  | [], _, out, _ => out.reverse
  | item :: rest, seen, out, limit =>
    if item.text ∈ seen then topKLoop rest seen out limit
    else
      let out' := item.text :: out
      if limit ≤ out'.length then out'.reverse
      else topKLoop rest (item.text :: seen) out' limit

/-- `searchMemory`: vector retrieval (abstracted as the two raw row
lists), scope selection, lexical guardrails, sort, dedupe, top-k.
`vectorEmpty` models `generateEmbedding(query).length === 0`. -/
def searchMemory (scope : MemoryQueryScope) (strict : Bool) (vectorEmpty : Bool)
    (docRows factRows : List RawRow) (query : Str) (limit : Nat) : List Str :=
  if vectorEmpty then []
  else
    let includeDocuments := scope ≠ .facts_only
    let includeFacts := scope ≠ .documents_only
    let searchGroups :=
      (if includeDocuments then [searchTable "documents" docRows query] else []) ++
      (if includeFacts then [searchTable "user_facts" factRows query] else [])
    let all := searchGroups.flatten
    let queryTokens := tokenizeQuery query
    let all :=
      if queryTokens.length > 0 then
        let lexicalMatches := all.filter (fun item => item.phraseMatch || item.keywordHits > 0)
        if lexicalMatches.length > 0 then lexicalMatches
        else
          match detectPersonalIntent query with
          | some personalIntent =>
            let intentMatches := all.filter (fun item => matchesPersonalIntent item.text personalIntent)
            if intentMatches.length > 0 then intentMatches
            else if strict then [] else all
          | none => if strict then [] else all
      else all
    topKLoop (sortByScore all) [] [] limit

/-- `saveRecord`: embed, bail out on an empty vector, else append the
new record (creating the table on first write).  Returns the table and
the updated embedding cache. -/
def saveRecord (cfg : EmbedConfig) (cache : EmbedCache)
    (table : Option (List MemoryRecord)) (text : Str)
    (category source : Option Str) (freshId nowIso : Str) :
    Option (List MemoryRecord) × EmbedCache :=
  let (vector, cache') := generateEmbedding cfg cache text
  if vector.length = 0 then (table, cache')
  else
    let record : MemoryRecord :=
      { id := freshId, text := text, vector := vector, createdAt := nowIso,
        category := category, source := source }
    match table with
    | some records => (some (records ++ [record]), cache')
    | none => (some [record], cache')

/-- `saveUserFact`. -/
def saveUserFact (cfg : EmbedConfig) (cache : EmbedCache)
    (facts : Option (List MemoryRecord)) (fact : Str) (category : Str)
    (freshId nowIso : Str) : Option (List MemoryRecord) × EmbedCache :=
  saveRecord cfg cache facts fact (some category) (some (str "user_fact")) freshId nowIso

end Memory


/-! ## Answer orchestrator

Transcribed from `archestra-orchestrator.ts`: the extractive selector,
the grounding check and `enforceGrounding`.  The remote provider call is
abstracted as the answer string it produced; environment lookups are
parameters holding the raw environment values. -/

namespace Orch

/-- `FALLBACK_ANSWER`. -/
def FALLBACK_ANSWER : Str := str "I don't know based on the provided context."

/-- `normalizeLine`: collapse whitespace, trim, lowercase. -/
def normalizeLine (text : Str) : Str := toLowerStr (jsTrim (collapseWs text))

/-- `/^\[\d+\]\s*/`: the numbered-context prefix. -/
def indexPrefixRe : Re :=
  .seq (.ch 91) (.seq (.plus Pat.digit) (.seq (.ch 93) (.star Pat.wsCls)))

/-- `line.replace(/^\[\d+\]\s*/, "")`: drop the anchored prefix match. -/
def stripIndexPrefix (line : Str) : Str :=
  match matchAt line indexPrefixRe 0 with
  | some (stop, _) => line.drop stop
  | none => line

/-- `tokenize`: lowercase, strip punctuation, tokens of length ≥ 3. -/
def tokenize (text : Str) : List Str :=
  (Memory.splitWs ((toLowerStr text).map (fun c =>
    if (97 ≤ c && c ≤ 122) || (48 ≤ c && c ≤ 57) || isWsCode c then c else 32))).filter
    (fun token => 3 ≤ token.length)

/-- `isTokenMatch`: equality or prefix in either direction. -/
def isTokenMatch (queryToken lineToken : Str) : Bool :=
  lineToken = queryToken || queryToken.isPrefixOf lineToken || lineToken.isPrefixOf queryToken

/-- `detectPersonalIntent` (duplicated in the source from the memory
repository; same regexes). -/
def detectPersonalIntent (query : Str) : Option PersonalIntent :=
  let normalized := toLowerStr query
  if reTest Intent.nameWordRe normalized then some .name
  else if reTest Intent.phoneWordRe normalized then some .phone
  else if reTest Intent.emailWordRe normalized then some .email
  else none

/-- `lineMatchesPersonalIntent`. -/
def lineMatchesPersonalIntent (line : Str) (intent : PersonalIntent) : Bool :=
  match intent with
  | .name => reTest Intent.titleCaseRe line || reTest Intent.upperCaseRe line
  | .phone => reTest Intent.phoneLikeRe line
  | .email => reTest Intent.emailLikeRe line

/-- The candidate lines of a context: split on newlines, strip the
numbered prefix, trim, drop empties. -/
def contextLines (context : Str) : List Str :=
  ((context.splitOn 10).map (fun line => jsTrim (stripIndexPrefix line))).filter
    (fun line => line.length > 0)

/-- The body of the best-line fold of `pickExtractiveLine`: score every
line, keep the first line with a strictly larger score than any before. -/
def bestLineFold (lines : List Str) (score : Str → Nat) : Int × Option Str :=
  lines.foldl (fun acc line =>
    let (bestScore, bestLine) := acc
    if bestScore < (score line : Int) then ((score line : Int), some line)
    else (bestScore, bestLine)) (-1, none)

/-- `pickExtractiveLine`: deterministic lexical fallback selector. -/
def pickExtractiveLine (context query : Str) : Option Str :=
  let lines := contextLines context
  if lines = [] then none
  else
    let queryTokens := tokenize query
    let personalIntent := detectPersonalIntent query
    if queryTokens.length = 0 then
      match personalIntent with
      | some intent =>
        match lines.find? (fun line => lineMatchesPersonalIntent line intent) with
        | some intentLine => some intentLine
        | none => lines.head?
      | none => lines.head?
    else
      let score := fun (line : Str) =>
        let lineTokens := tokenize line
        (queryTokens.countP (fun token =>
          lineTokens.any (fun lineToken => isTokenMatch token lineToken))) +
        (match personalIntent with
         | some intent => if lineMatchesPersonalIntent line intent then 2 else 0
         | none => 0)
      let best := bestLineFold lines score
      if best.1 ≤ 0 then none else best.2

/-- `/[a-z0-9]{3,}/i`. -/
def alnum3Re : Re := Re.atLeast 3 Pat.alnum

/-- `isGroundedAnswer` with the resolved grounding mode (the lowercased
value of `ARCHESTRA_GROUNDING_MODE`, defaulting to `excerpt`). -/
def isGroundedAnswer (mode : Str) (answer context : Str) : Bool :=
  let normalizedAnswer := normalizeLine answer
  if normalizedAnswer.length < 6 then false
  else if ¬ reTest alnum3Re normalizedAnswer then false
  else
    let lines :=
      ((context.splitOn 10).map (fun line => normalizeLine (stripIndexPrefix line))).filter
        (fun line => 8 ≤ line.length)
    if mode = str "exact" then lines.any (fun line => line = normalizedAnswer)
    else lines.any (fun line => strIncludes line normalizedAnswer)

/-- `enforceGrounding`. -/
def enforceGrounding (mode : Str) (answer context query : Str) : Str :=
  let trimmed := jsTrim answer
  if trimmed = [] then (pickExtractiveLine context query).getD FALLBACK_ANSWER
  else if trimmed = FALLBACK_ANSWER then
    (pickExtractiveLine context query).getD trimmed
  else if isGroundedAnswer mode trimmed context then trimmed
  else (pickExtractiveLine context query).getD FALLBACK_ANSWER

end Orch

/-! ## Consent gate and telemetry event bus

Transcribed from `consent-gate.ts` and `event-bus.ts`.  The module-level
`Map` and event array are explicit state; `Date.now()` is a parameter. -/

namespace Consent

abbrev ConsentState := List (Str × Nat)

def DEFAULT_CONSENT_TTL_MS : Nat := 5 * 60 * 1000

/-- `normalizeTopic`: trim then lowercase. -/
def normalizeTopic (topic : Str) : Str := toLowerStr (jsTrim topic)

/-- `getConsentTtlMs`: positive configured value, else the default
(`none` stands for an unset or NaN parse). -/
def getConsentTtlMs (parsed : Option Int) : Nat :=
  match parsed with
  | some n => if 0 < n then n.toNat else DEFAULT_CONSENT_TTL_MS
  | none => DEFAULT_CONSENT_TTL_MS

/-- `grantConsent`. -/
def grantConsent (s : ConsentState) (topic : Str) (now ttl : Nat) : ConsentState :=
  let normalized := normalizeTopic topic
  if normalized = [] then s
  else alistSet s normalized (now + ttl)

/-- `denyConsent`. -/
def denyConsent (s : ConsentState) (topic : Str) : ConsentState :=
  let normalized := normalizeTopic topic
  if normalized = [] then s
  else alistDelete s normalized

/-- `consumeConsent`: returns the decision and the new state.  The
`expiry = 0` branch mirrors the JavaScript falsiness test `!expiry`,
which returns early without deleting. -/
def consumeConsent (s : ConsentState) (topic : Str) (now : Nat) :
    Bool × ConsentState :=
  let normalized := normalizeTopic topic
  if normalized = [] then (false, s)
  else
    match alistGet s normalized with
    | none => (false, s)
    | some expiry =>
      if expiry = 0 then (false, s)
      else
        let s' := alistDelete s normalized
        if expiry < now then (false, s') else (true, s')

end Consent

namespace Events

structure DashboardEvent where
  id : Str
  etype : String
  timestamp : Str
  payload : List (String × Str) := []

/-- `getBufferLimit`: positive configured capacity, else 200
(`none` stands for an unset or NaN `DASHBOARD_EVENT_BUFFER`). -/
def getBufferLimit (parsed : Option Int) : Nat :=
  match parsed with
  | some n => if 0 < n then n.toNat else 200
  | none => 200

/-- The ring mutation of `publishEvent`: append the new event, then
`splice(0, length - limit)` on overflow.  (Handler fan-out does not
touch the ring; exceptions are swallowed.) -/
def publishEvent (events : List DashboardEvent) (limit : Nat)
    (event : DashboardEvent) : List DashboardEvent :=
  let es := events ++ [event]
  if limit < es.length then es.drop (es.length - limit) else es

end Events

/-! ## MCP retrieval controller

Transcribed from `personal-memory-server.ts`: context snapshotting via
the privacy pipeline, shrink-to-safe prefix search, and the
`query_personal_memory` / `save_memory` tool handlers.  Retrieval and
remote generation are abstracted as arguments (`searchOutcome` is the
list `searchMemory` returned, `none` standing for a thrown error;
`genResult` is the orchestrator's answer, `none` standing for a thrown
error). -/

namespace Server

/-- `parsePositiveInt` (`none` stands for an unset or NaN parse). -/
def parsePositiveInt (value : Option Int) (fallback : Nat) : Nat :=
  match value with
  | some n => if 0 < n then n.toNat else fallback
  | none => fallback

/-- `resolveRetrievalTopK`: configured top-k clamped to `[1, 10]`. -/
def resolveRetrievalTopK (cfg : Option Int) : Nat :=
  min (max (parsePositiveInt cfg 3) 1) 10

/-- `resolveResultMaxChars`: configured cap clamped to `[120, 2000]`. -/
def resolveResultMaxChars (cfg : Option Int) : Nat :=
  min (max (parsePositiveInt cfg 320) 120) 2000

/-- `compactResultText`. -/
def compactResultText (text : Str) (maxChars : Nat) : Str :=
  let normalized := jsTrim (collapseWs text)
  if normalized.length ≤ maxChars then normalized
  else jsTrim (normalized.take maxChars) ++ str " ..."

/-- `buildRawContext`: `[1] …\n[2] …`. -/
def buildRawContext (results : List Str) : Str :=
  joinWith [10]
    (results.enum.map (fun p =>
      str "[" ++ natStr (p.1 + 1) ++ str "] " ++ p.2))

structure ContextSnapshot where
  rawContext : Str
  cleanedText : Str
  redactionCount : Nat
  riskLevel : RiskLevel
  confidence : RedactionConfidence
  resultCount : Nat
  deriving Repr

/-- `snapshotContext`. -/
def snapshotContext (results : List Str) : ContextSnapshot :=
  let rawContext := buildRawContext results
  let r := runPrivacyPipeline rawContext
  { rawContext := rawContext
    cleanedText := r.cleanedText
    redactionCount := r.redactionCount
    riskLevel := r.riskLevel
    confidence := r.confidence
    resultCount := results.length }

/-- The safety test of `pickSafeContext`. -/
def isSafeSnapshot (c : ContextSnapshot) : Bool :=
  c.confidence = RedactionConfidence.HIGH && c.riskLevel = RiskLevel.LOW

/-- `pickSafeContext`: full context if already safe, else the first safe
prefix of length `1..N`, else the full snapshot. -/
def pickSafeContext (results : List Str) : ContextSnapshot :=
  let fullSnapshot := snapshotContext results
  if isSafeSnapshot fullSnapshot then fullSnapshot
  else
    match (List.range results.length).findSome? (fun i =>
      let candidate := snapshotContext (results.take (i + 1))
      if isSafeSnapshot candidate then some candidate else none) with
    | some candidate => candidate
    | none => fullSnapshot

def riskLevelStr : RiskLevel → Str
  | .LOW => str "LOW"
  | .HIGH => str "HIGH"

/-- The default `SANITIZED_CONTEXT` payload of the query tool. -/
def sanitizedPayload (snap : ContextSnapshot) : Str :=
  joinWith [10]
    [str "SANITIZED_CONTEXT:", snap.cleanedText, [],
     str "Redactions: " ++ natStr snap.redactionCount,
     str "Risk: " ++ riskLevelStr snap.riskLevel]

structure ToolResponse where
  text : Str
  isError : Bool
  consent : Consent.ConsentState
  deriving Repr

/-- The `query_personal_memory` handler after `searchMemory`
(abstracted as `searchOutcome`): compact results, snapshot via
`pickSafeContext`, gate on confidence and risk (consuming consent for
high-risk topics when the hook is enabled), then either the generated
answer (when enabled and generation succeeded) or the sanitized
payload. -/
def queryPersonalMemory (consentEnabled archestraEnabled : Bool)
    (genResult : Option Str) (searchOutcome : Option (List Str))
    (maxCharsCfg : Option Int) (consentSt : Consent.ConsentState)
    (topic : Str) (now : Nat) : ToolResponse :=
  match searchOutcome with
  | none => ⟨str "ERROR: Failed to search memory.", true, consentSt⟩
  | some rawResults =>
    let resultMaxChars := resolveResultMaxChars maxCharsCfg
    let results := rawResults.map (fun item => compactResultText item resultMaxChars)
    if results.length = 0 then ⟨str "NO_CONTEXT_FOUND", false, consentSt⟩
    else
      let contextSnapshot := pickSafeContext results
      if contextSnapshot.confidence = RedactionConfidence.LOW then
        ⟨str "NO_CONTEXT", false, consentSt⟩
      else if contextSnapshot.riskLevel = RiskLevel.HIGH then
        let consumed :=
          if consentEnabled then Consent.consumeConsent consentSt topic now
          else (false, consentSt)
        if consumed.1 = false then ⟨str "NO_CONTEXT", false, consumed.2⟩
        else if archestraEnabled then
          match genResult with
          | some answer => ⟨answer, false, consumed.2⟩
          | none => ⟨sanitizedPayload contextSnapshot, false, consumed.2⟩
        else ⟨sanitizedPayload contextSnapshot, false, consumed.2⟩
      else if archestraEnabled then
        match genResult with
        | some answer => ⟨answer, false, consentSt⟩
        | none => ⟨sanitizedPayload contextSnapshot, false, consentSt⟩
      else ⟨sanitizedPayload contextSnapshot, false, consentSt⟩

structure SaveResponse where
  text : Str
  isError : Bool
  facts : Option (List Memory.MemoryRecord)
  cache : EmbedCache

/-- The `save_memory` handler: validate the `fact` argument, save the
user fact (embedding inside), answer with the success sentinel.
`factArg`/`categoryArg` are `none` when absent or not a string, which
the source maps to `""` and `"general"`. -/
def saveMemoryTool (cfg : EmbedConfig) (cache : EmbedCache)
    (facts : Option (List Memory.MemoryRecord))
    (factArg categoryArg : Option Str) (freshId nowIso : Str) : SaveResponse :=
  let fact := factArg.getD []
  let category := categoryArg.getD (str "general")
  if fact = [] then
    ⟨str "ERROR: 'fact' is required.", true, facts, cache⟩
  else
    let (facts', cache') := Memory.saveUserFact cfg cache facts fact category freshId nowIso
    ⟨str "MEMORY_SAVED: Saved fact to category '" ++ category ++ str "'.",
     false, facts', cache'⟩

end Server


/-! ## Auxiliary definitions for the theorems -/

/-- Decompose a string into its maximal non-whitespace runs, used to
reason about trim/collapse normalization. -/
def wordsOf : Str → List Str
  | [] => []
  | c :: rest =>
    if isWsCode c then wordsOf rest
    else (c :: rest.takeWhile (fun d => ¬ isWsCode d)) ::
      wordsOf (rest.dropWhile (fun d => ¬ isWsCode d))
termination_by s => s.length
decreasing_by
  · simp
  · simpa using Nat.lt_succ_of_le
      (List.dropWhile_suffix (fun d => ¬ isWsCode d)).sublist.length_le

/-- Strip trailing whitespace (the second half of `jsTrim`). -/
def trimBack (s : Str) : Str := (s.reverse.dropWhile isWsCode).reverse

namespace Memory

/-- The keyword-hit count the specification describes: distinct query
tokens matched against the tokens of the normalized row text by
prefix-or-equality over the expanded variants.  (Stated for comparison
with `countKeywordHits`; the code uses whole-text substring matching
and counts tokens with multiplicity.) -/
def prefixKeywordHits (text : Str) (tokens : List Str) : Nat :=
  (tokens.dedup).countP (fun token =>
    (expandTokenVariants token).any (fun variant =>
      (splitWs (normalizeLexicalText text)).any (fun rowToken =>
        rowToken = variant || variant.isPrefixOf rowToken)))

/-- The combined retrieved-row list of one `searchMemory` call (the
per-table `searchTable` outputs in scope order). -/
def retrievedResults (scope : MemoryQueryScope) (docRows factRows : List RawRow)
    (query : Str) : List SearchResult :=
  (if scope ≠ .facts_only then searchTable "documents" docRows query else []) ++
  (if scope ≠ .documents_only then searchTable "user_facts" factRows query else [])

end Memory

/-- A concrete embedding configuration for the counterexample and
witness instances: local provider, abstract digest and remote response
fixed to empty. -/
def sampleEmbedConfig (dim : Int) : EmbedConfig :=
  { provider := .local, model := str "local-hash-768", targetDim := dim,
    sha256 := fun _ => [], remote := fun _ => [] }

/-- A cache state holding a single one-dimensional vector under the
composite key of the text `"hi"`: the state a persisted cache reaches
when the configured dimension was 1 when `"hi"` was first embedded. -/
def staleCache : EmbedCache :=
  [(cacheKeyFor (str "hi") EmbeddingProvider.local (str "local-hash-768"), [(0 : Float)])]


/-! ## Helper lemmas -/

theorem alistGet_alistDelete {B : Type} (m : List (Str × B)) (k : Str) :
    alistGet (alistDelete m k) k = none := by
  induction m with
  | nil => rfl
  | cons e rest ih =>
    by_cases h : e.1 = k
    · simpa [alistDelete, h] using ih
    · simpa [alistDelete, alistGet, List.find?, h] using ih

theorem jsTrim_eq_nil_of_ws (s : Str) (h : ∀ c ∈ s, isWsCode c) : jsTrim s = [] := by
  unfold jsTrim
  rw [List.dropWhile_eq_nil_iff.2 h]
  simp

theorem foldl_count_ite {A : Type} (p : A → Bool) (l : List A) (n : Nat) :
    l.foldl (fun hits t => if p t then hits + 1 else hits) n = n + l.countP p := by
  induction l generalizing n with
  | nil => simp
  | cons a rest ih =>
    by_cases h : p a <;> simp [h, ih, List.countP_cons] <;> omega

theorem alignVectorDimension_length (v : List Float) (t : Int) (ht : 0 < t) :
    ((alignVectorDimension v t).length : Int) = t := by
  unfold alignVectorDimension
  rw [if_neg (by omega)]
  by_cases h1 : (v.length : Int) = t
  · rw [if_pos h1]; exact h1
  · rw [if_neg h1]
    by_cases h2 : t < (v.length : Int)
    · rw [if_pos h2]
      simp only [List.length_take]
      omega
    · rw [if_neg h2]
      simp only [List.length_append, List.length_replicate]
      omega

/-! ## Claim theorems -/

/-- C9: the telemetry event ring never exceeds the configured capacity
(default 200): after every `publishEvent` the stored list has at most
the configured bound of events, and equals the most recent suffix of the
appended list, overflow evicting the oldest events from the front. -/
theorem claim_C9_event_ring_bounded (events : List Events.DashboardEvent)
    (parsed : Option Int) (event : Events.DashboardEvent) :
    (Events.publishEvent events (Events.getBufferLimit parsed) event).length ≤
      Events.getBufferLimit parsed ∧
    Events.publishEvent events (Events.getBufferLimit parsed) event =
      (events ++ [event]).drop
        ((events ++ [event]).length - Events.getBufferLimit parsed) ∧
    Events.getBufferLimit none = 200 := by
  refine ⟨?_, ?_, rfl⟩ <;> unfold Events.publishEvent <;>
    by_cases h : Events.getBufferLimit parsed < (events ++ [event]).length
  · rw [if_pos h]
    simp only [List.length_drop]
    omega
  · rw [if_neg h]
    omega
  · rw [if_pos h]
  · rw [if_neg h]
    have : (events ++ [event]).length - Events.getBufferLimit parsed = 0 := by omega
    rw [this, List.drop_zero]

/-- C4: consent is one-shot.  `consumeConsent` returns `true` only if
an unexpired entry existed for the normalized topic; a consume that
finds a (well-formed, i.e. nonzero-expiry) entry removes it, so a second
consume of the same topic without a fresh grant returns `false`; the
default TTL is five minutes. -/
theorem claim_C4_consent_one_shot (s : Consent.ConsentState) (topic : Str)
    (now now2 : Nat) :
    ((Consent.consumeConsent s topic now).1 = true →
      ∃ e, alistGet s (Consent.normalizeTopic topic) = some e ∧ now ≤ e) ∧
    ((Consent.consumeConsent s topic now).1 = true →
      (Consent.consumeConsent (Consent.consumeConsent s topic now).2 topic now2).1 = false) ∧
    (Consent.normalizeTopic topic ≠ [] →
      ∀ e, alistGet s (Consent.normalizeTopic topic) = some e → e ≠ 0 →
      alistGet (Consent.consumeConsent s topic now).2 (Consent.normalizeTopic topic) = none) ∧
    Consent.getConsentTtlMs none = 5 * 60 * 1000 := by
  refine ⟨?_, ?_, ?_, rfl⟩
  · intro htrue
    unfold Consent.consumeConsent at htrue
    by_cases hn : Consent.normalizeTopic topic = []
    · simp [hn] at htrue
    · rw [if_neg hn] at htrue
      cases hget : alistGet s (Consent.normalizeTopic topic) with
      | none => rw [hget] at htrue; simp at htrue
      | some e =>
        rw [hget] at htrue
        dsimp only at htrue
        by_cases he : e = 0
        · simp [he] at htrue
        · rw [if_neg he] at htrue
          by_cases hexp : e < now
          · simp [hexp] at htrue
          · exact ⟨e, rfl, by omega⟩
  · intro htrue
    unfold Consent.consumeConsent at htrue
    by_cases hn : Consent.normalizeTopic topic = []
    · simp [hn] at htrue
    · rw [if_neg hn] at htrue
      cases hget : alistGet s (Consent.normalizeTopic topic) with
      | none => rw [hget] at htrue; simp at htrue
      | some e =>
        rw [hget] at htrue
        dsimp only at htrue
        by_cases he : e = 0
        · simp [he] at htrue
        · rw [if_neg he] at htrue
          by_cases hexp : e < now
          · simp [hexp] at htrue
          · have h2 : (Consent.consumeConsent s topic now).2 =
                alistDelete s (Consent.normalizeTopic topic) := by
              unfold Consent.consumeConsent
              rw [if_neg hn, hget]
              dsimp only
              rw [if_neg he, if_neg hexp]
            rw [h2]
            unfold Consent.consumeConsent
            rw [if_neg hn, alistGet_alistDelete]
  · intro hn e hget he
    unfold Consent.consumeConsent
    rw [if_neg hn, hget]
    dsimp only
    rw [if_neg he]
    by_cases hexp : e < now
    · rw [if_pos hexp]
      exact alistGet_alistDelete s (Consent.normalizeTopic topic)
    · rw [if_neg hexp]
      exact alistGet_alistDelete s (Consent.normalizeTopic topic)


/-- Witness for C4 at a concrete state: a granted topic consumes once,
then fails. -/
theorem claim_C4_witness :
    (Consent.consumeConsent [(str "t", 500)] (str "t") 400).1 = true ∧
    (Consent.consumeConsent
      (Consent.consumeConsent [(str "t", 500)] (str "t") 400).2 (str "t") 400).1 = false :=
  ⟨by decide,
   (claim_C4_consent_one_shot [(str "t", 500)] (str "t") 400 400).2.1 (by decide)⟩

/-- C10: a `save_memory` call whose fact is non-empty whitespace
returns the `MEMORY_SAVED` success sentinel, yet writes nothing: the
fact normalizes to empty text, `generateEmbedding` returns the empty
vector, and `saveRecord` returns without touching the store or the
cache. -/
theorem claim_C10_whitespace_fact_reports_saved (cfg : EmbedConfig) (cache : EmbedCache)
    (facts : Option (List Memory.MemoryRecord)) (fact : Str) (categoryArg : Option Str)
    (freshId nowIso : Str) (hne : fact ≠ []) (hws : ∀ c ∈ fact, isWsCode c) :
    (Server.saveMemoryTool cfg cache facts (some fact) categoryArg freshId nowIso).text =
      str "MEMORY_SAVED: Saved fact to category '" ++ categoryArg.getD (str "general") ++
        str "'." ∧
    (Server.saveMemoryTool cfg cache facts (some fact) categoryArg freshId nowIso).isError =
      false ∧
    (Server.saveMemoryTool cfg cache facts (some fact) categoryArg freshId nowIso).facts =
      facts ∧
    (Server.saveMemoryTool cfg cache facts (some fact) categoryArg freshId nowIso).cache =
      cache ∧
    (generateEmbedding cfg cache fact).1 = [] := by
  have hnorm : collapseWs (jsTrim fact) = [] := by
    rw [jsTrim_eq_nil_of_ws fact hws]
    rfl
  have hemb : generateEmbedding cfg cache fact = ([], cache) := by
    unfold generateEmbedding
    rw [if_pos hnorm]
  have hsave : Memory.saveRecord cfg cache facts fact (some (categoryArg.getD (str "general")))
      (some (str "user_fact")) freshId nowIso = (facts, cache) := by
    unfold Memory.saveRecord
    rw [hemb]
    rfl
  unfold Server.saveMemoryTool
  rw [Option.getD_some, if_neg hne]
  unfold Memory.saveUserFact
  rw [hsave]
  exact ⟨rfl, rfl, rfl, rfl, by rw [hemb]⟩

/-- Witness for C10 on the single-space fact. -/
theorem claim_C10_witness :
    (Server.saveMemoryTool (sampleEmbedConfig 3) [] none (some (str " ")) none
        (str "id") (str "now")).text =
      str "MEMORY_SAVED: Saved fact to category 'general'." ∧
    (Server.saveMemoryTool (sampleEmbedConfig 3) [] none (some (str " ")) none
        (str "id") (str "now")).facts = none :=
  ⟨((claim_C10_whitespace_fact_reports_saved (sampleEmbedConfig 3) [] none (str " ") none
      (str "id") (str "now") (by decide) (by decide)).1),
   ((claim_C10_whitespace_fact_reports_saved (sampleEmbedConfig 3) [] none (str " ") none
      (str "id") (str "now") (by decide) (by decide)).2.2.1)⟩

/-- C7 counterexample: with configured dimension 2 and a persisted
cache entry of length 1 under the text's composite key (the state left
behind by an earlier run configured with dimension 1), `generateEmbedding`
returns the cached one-dimensional vector, not a vector of length 2. -/
theorem claim_C7_counterexample :
    ¬ (((generateEmbedding (sampleEmbedConfig 2) staleCache (str "hi")).1.length : Int) =
        (sampleEmbedConfig 2).targetDim) := by decide

/-- C7 (amended): `generateEmbedding` returns a vector of length
exactly the configured dimension `d > 0` for every nonempty-normalizing
input on a cache miss (the provider vector is aligned by truncation or
zero-padding), and on a cache hit whose stored vector already has
length `d`; a cache hit is returned as stored, without re-alignment. -/
theorem claim_C7_embedding_dimension (cfg : EmbedConfig) (cache : EmbedCache) (text : Str)
    (hd : 0 < cfg.targetDim) (hne : collapseWs (jsTrim text) ≠ [])
    (hcache :
      alistGet cache (cacheKeyFor (collapseWs (jsTrim text)) cfg.provider cfg.model) = none ∨
      ∃ v, alistGet cache (cacheKeyFor (collapseWs (jsTrim text)) cfg.provider cfg.model) =
          some v ∧ (v.length : Int) = cfg.targetDim) :
    (((generateEmbedding cfg cache text).1.length : Int)) = cfg.targetDim := by
  unfold generateEmbedding
  rw [if_neg hne]
  dsimp only
  rcases hcache with hmiss | ⟨v, hhit, hlen⟩
  · rw [hmiss]
    dsimp only
    exact alignVectorDimension_length _ _ hd
  · rw [hhit]
    dsimp only
    exact hlen

/-- Witness for C7 on a fresh cache with dimension 3. -/
theorem claim_C7_witness :
    (((generateEmbedding (sampleEmbedConfig 3) [] (str "hi")).1.length : Int)) =
      (sampleEmbedConfig 3).targetDim :=
  claim_C7_embedding_dimension (sampleEmbedConfig 3) [] (str "hi")
    (by decide) (by decide) (Or.inl rfl)

/-- C8 counterexample: `countKeywordHits` diverges from the claimed
prefix-or-equality count of distinct tokens.  The token `art` has no
prefix-or-equality match against the row token `start` yet hits via
substring containment, and a duplicated token is counted twice. -/
theorem claim_C8_counterexample :
    Memory.countKeywordHits (str "start") [str "art"] = 1 ∧
    Memory.prefixKeywordHits (str "start") [str "art"] = 0 ∧
    Memory.countKeywordHits (str "cat") [str "cat", str "cat"] = 2 ∧
    Memory.prefixKeywordHits (str "cat") [str "cat", str "cat"] = 1 := by decide

/-- C8 (amended): `keywordHits` equals the number of query tokens,
counted with multiplicity, whose expanded variant set contains a variant
occurring as a substring of the normalized row text. -/
theorem claim_C8_keyword_hits (text : Str) (tokens : List Str) :
    Memory.countKeywordHits text tokens =
      tokens.countP (fun token =>
        (Memory.expandTokenVariants token).any (fun variant =>
          strIncludes (Memory.normalizeLexicalText text) variant)) := by
  unfold Memory.countKeywordHits
  by_cases h : tokens = []
  · simp [h]
  · rw [if_neg h]
    simpa using foldl_count_ite
      (fun token => (Memory.expandTokenVariants token).any
        (fun variant => strIncludes (Memory.normalizeLexicalText text) variant))
      tokens 0


theorem findSome?_append {A B : Type} (f : A → Option B) (l1 l2 : List A) :
    (l1 ++ l2).findSome? f =
      match l1.findSome? f with
      | some b => some b
      | none => l2.findSome? f := by
  induction l1 with
  | nil => simp
  | cons a rest ih =>
    simp only [List.cons_append, List.findSome?_cons]
    cases f a <;> simp [ih]

theorem findSome?_range_none {B : Type} (n : Nat) (f : Nat → Option B)
    (h : ∀ j < n, f j = none) : (List.range n).findSome? f = none := by
  induction n with
  | zero => rfl
  | succ m ih =>
    rw [List.range_succ, findSome?_append, ih (fun j hj => h j (by omega))]
    simp [List.findSome?_cons, h m (by omega)]

theorem findSome?_range_first {B : Type} (n k : Nat) (f : Nat → Option B)
    (hk : k < n) (hbefore : ∀ j < k, f j = none) (hsome : (f k).isSome) :
    (List.range n).findSome? f = f k := by
  induction n with
  | zero => omega
  | succ m ih =>
    rw [List.range_succ, findSome?_append]
    by_cases hkm : k < m
    · rw [ih hkm]
      cases hfk : f k with
      | none => rw [hfk] at hsome; simp at hsome
      | some b => rfl
    · have hkeq : k = m := by omega
      subst hkeq
      rw [findSome?_range_none k f hbefore]
      cases hfk : f k <;> simp [List.findSome?_cons, hfk]

/-- C6: `pickSafeContext` returns the full-list snapshot when it is
safe (confidence HIGH and risk LOW); otherwise the snapshot of the
first prefix `r[0..k]`, `k = 1..N` in increasing length order, whose
snapshot is safe; and the full-list snapshot when no prefix is safe. -/
theorem claim_C6_pick_safe_context (results : List Str) (hne : results ≠ []) :
    (Server.isSafeSnapshot (Server.snapshotContext results) = true →
      Server.pickSafeContext results = Server.snapshotContext results) ∧
    (Server.isSafeSnapshot (Server.snapshotContext results) = false →
      ∀ k < results.length,
        Server.isSafeSnapshot (Server.snapshotContext (results.take (k + 1))) = true →
        (∀ j < k,
          Server.isSafeSnapshot (Server.snapshotContext (results.take (j + 1))) = false) →
        Server.pickSafeContext results = Server.snapshotContext (results.take (k + 1))) ∧
    (Server.isSafeSnapshot (Server.snapshotContext results) = false →
      (∀ k < results.length,
        Server.isSafeSnapshot (Server.snapshotContext (results.take (k + 1))) = false) →
      Server.pickSafeContext results = Server.snapshotContext results) := by
  refine ⟨?_, ?_, ?_⟩
  · intro hsafe
    unfold Server.pickSafeContext
    rw [if_pos hsafe]
  · intro hnotsafe k hk hksafe hbefore
    unfold Server.pickSafeContext
    rw [if_neg (by simp [hnotsafe])]
    rw [findSome?_range_first results.length k _ hk
      (fun j hj => by simp [hbefore j hj]) (by simp [hksafe])]
    rw [if_pos hksafe]
  · intro hnotsafe hnone
    unfold Server.pickSafeContext
    rw [if_neg (by simp [hnotsafe])]
    rw [findSome?_range_none results.length _
      (fun j hj => by simp [hnone j hj])]

/-- Witness for C6 on a safe singleton context. -/
theorem claim_C6_witness :
    Server.pickSafeContext [str "hi"] = Server.snapshotContext [str "hi"] :=
  (claim_C6_pick_safe_context [str "hi"] (by decide)).1 (by decide)


/-- C1: for every `query_personal_memory` call (retrieval abstracted as
its result list): zero retrieved results return exactly
`NO_CONTEXT_FOUND`; a selected snapshot with confidence LOW, or with
risk HIGH when no live consent token for the topic is consumed, returns
exactly `NO_CONTEXT`; otherwise, with answer generation disabled, the
call returns the literal payload `SANITIZED_CONTEXT:`, the cleaned
text, an empty line, `Redactions: <n>` and `Risk: <LOW|HIGH>` joined by
newlines, built from the snapshot's fields. -/
theorem claim_C1_query_tool_outputs (consentEnabled archestraEnabled : Bool)
    (genResult : Option Str) (rawResults : List Str) (maxCharsCfg : Option Int)
    (consentSt : Consent.ConsentState) (topic : Str) (now : Nat) :
    (rawResults.map (fun item =>
        Server.compactResultText item (Server.resolveResultMaxChars maxCharsCfg)) = [] →
      (Server.queryPersonalMemory consentEnabled archestraEnabled genResult
        (some rawResults) maxCharsCfg consentSt topic now).text = str "NO_CONTEXT_FOUND") ∧
    (∀ snap, snap = Server.pickSafeContext (rawResults.map (fun item =>
        Server.compactResultText item (Server.resolveResultMaxChars maxCharsCfg))) →
      rawResults.map (fun item =>
        Server.compactResultText item (Server.resolveResultMaxChars maxCharsCfg)) ≠ [] →
      (snap.confidence = RedactionConfidence.LOW →
        (Server.queryPersonalMemory consentEnabled archestraEnabled genResult
          (some rawResults) maxCharsCfg consentSt topic now).text = str "NO_CONTEXT") ∧
      (snap.confidence = RedactionConfidence.HIGH →
        snap.riskLevel = RiskLevel.HIGH →
        (consentEnabled && (Consent.consumeConsent consentSt topic now).1) = false →
        (Server.queryPersonalMemory consentEnabled archestraEnabled genResult
          (some rawResults) maxCharsCfg consentSt topic now).text = str "NO_CONTEXT") ∧
      (archestraEnabled = false → snap.confidence = RedactionConfidence.HIGH →
        (snap.riskLevel = RiskLevel.HIGH →
          (consentEnabled && (Consent.consumeConsent consentSt topic now).1) = true) →
        (Server.queryPersonalMemory consentEnabled archestraEnabled genResult
          (some rawResults) maxCharsCfg consentSt topic now).text =
          joinWith [10]
            [str "SANITIZED_CONTEXT:", snap.cleanedText, [],
             str "Redactions: " ++ natStr snap.redactionCount,
             str "Risk: " ++ Server.riskLevelStr snap.riskLevel])) := by
  constructor
  · intro hempty
    unfold Server.queryPersonalMemory
    dsimp only
    rw [hempty]
    rfl
  · intro snap hsnap hnonempty
    unfold Server.queryPersonalMemory
    dsimp only
    rw [if_neg (by simpa using fun h => hnonempty (List.length_eq_zero.mp h))]
    rw [← hsnap]
    refine ⟨?_, ?_, ?_⟩
    · intro hlow
      simp [hlow]
    · intro hhigh hrisk hnoconsent
      cases hce : consentEnabled with
      | false => simp [hhigh, hrisk]
      | true =>
        subst hce
        rw [Bool.true_and] at hnoconsent
        simp [hhigh, hrisk, hnoconsent]
    · intro harch hhigh hconsent
      subst harch
      by_cases hr : snap.riskLevel = RiskLevel.HIGH
      · have hcons := hconsent hr
        cases hce : consentEnabled with
        | false => rw [hce] at hcons; simp at hcons
        | true =>
          subst hce
          rw [Bool.true_and] at hcons
          simp [hhigh, hr, hcons, Server.sanitizedPayload]
      · simp [hhigh, hr, Server.sanitizedPayload]


/-- Witness for C1: the empty-retrieval branch and the default payload
branch at concrete inputs. -/
theorem claim_C1_witness :
    (Server.queryPersonalMemory true false none (some []) none [] (str "t") 0).text =
      str "NO_CONTEXT_FOUND" ∧
    (Server.queryPersonalMemory true false none (some [str "hi"]) none [] (str "t") 0).text =
      joinWith [10]
        [str "SANITIZED_CONTEXT:",
         (Server.pickSafeContext [Server.compactResultText (str "hi")
            (Server.resolveResultMaxChars none)]).cleanedText, [],
         str "Redactions: " ++ natStr (Server.pickSafeContext [Server.compactResultText (str "hi")
            (Server.resolveResultMaxChars none)]).redactionCount,
         str "Risk: " ++ Server.riskLevelStr (Server.pickSafeContext
            [Server.compactResultText (str "hi")
              (Server.resolveResultMaxChars none)]).riskLevel] := by
  constructor
  · exact (claim_C1_query_tool_outputs true false none [] none [] (str "t") 0).1 rfl
  · refine ((claim_C1_query_tool_outputs true false none [str "hi"] none [] (str "t") 0).2
      _ rfl (by decide)).2.2 rfl (by decide) ?_
    intro hrisk
    exact absurd hrisk (by decide)


/-- A replace scan that fired no pattern copied its input unchanged. -/
theorem replaceScan_count_zero (s : Str) (re : Re) (repl : Repl) (ng : Nat)
    (ci : Option Nat) :
    ∀ fuel pos, s.length ≤ fuel + pos →
      (replaceScan s re repl ng ci fuel pos).2.1 = 0 →
      (replaceScan s re repl ng ci fuel pos).1 = s.drop pos
  | 0, pos, hfuel, _ => by
    unfold replaceScan
    exact (List.drop_eq_nil_of_le (by omega)).symm
  | Nat.succ f, pos, hfuel, hcount => by
    have hstep : ∀ (hpos : pos < s.length),
        (replaceScan s re repl ng ci f (pos + 1)).2.1 = 0 →
        ((List.get? s pos).elim (replaceScan s re repl ng ci f (pos + 1)).1
          (fun x => x :: (replaceScan s re repl ng ci f (pos + 1)).1)) = s.drop pos := by
      intro hpos hc0
      have hrest := replaceScan_count_zero s re repl ng ci f (pos + 1) (by omega) hc0
      cases hg : s.get? pos with
      | none => exact absurd (List.get?_eq_none.mp hg) (by omega)
      | some c =>
        dsimp only [Option.elim]
        rw [hrest]
        have h1 : s[pos]? = some c := by rw [← List.get?_eq_getElem?]; exact hg
        rw [List.getElem?_eq_getElem hpos] at h1
        rw [List.drop_eq_getElem_cons hpos, Option.some.inj h1]
    unfold replaceScan at hcount ⊢
    by_cases hpos : pos < s.length
    · rw [if_pos hpos] at hcount ⊢
      revert hcount
      cases hm : matchAt s re pos with
      | none =>
        intro hcount
        dsimp only at hcount ⊢
        exact hstep hpos hcount
      | some r =>
        obtain ⟨stop, caps⟩ := r
        intro hcount
        dsimp only at hcount ⊢
        by_cases hlt : pos < stop
        · rw [if_pos hlt] at hcount
          dsimp only at hcount
          omega
        · rw [if_neg hlt] at hcount ⊢
          exact hstep hpos hcount
    · rw [if_neg hpos] at hcount ⊢
      exact (List.drop_eq_nil_of_le (by omega)).symm


theorem pipelineStep_count (acc : Str × Nat × Nat × List (Str × Str)) (p : Pattern) :
    (pipelineStep acc p).2.1 =
      acc.2.1 + (reReplace acc.1 p.re p.repl p.numGroups p.captureIndex).2.1 := rfl

theorem foldl_pipelineStep_count_le (ps : List Pattern) :
    ∀ acc, acc.2.1 ≤ (ps.foldl pipelineStep acc).2.1 := by
  induction ps with
  | nil => intro acc; simp
  | cons p rest ih =>
    intro acc
    calc acc.2.1 ≤ (pipelineStep acc p).2.1 := by rw [pipelineStep_count]; omega
      _ ≤ _ := ih (pipelineStep acc p)

theorem foldl_pipelineStep_text (ps : List Pattern) :
    ∀ acc, (ps.foldl pipelineStep acc).2.1 = acc.2.1 →
      (ps.foldl pipelineStep acc).1 = acc.1 := by
  induction ps with
  | nil => intro acc _; rfl
  | cons p rest ih =>
    intro acc h
    simp only [List.foldl_cons] at h ⊢
    have hle := foldl_pipelineStep_count_le rest (pipelineStep acc p)
    have hcnt := pipelineStep_count acc p
    have hn : (reReplace acc.1 p.re p.repl p.numGroups p.captureIndex).2.1 = 0 := by omega
    have htext : (pipelineStep acc p).1 = acc.1 := by
      show (reReplace acc.1 p.re p.repl p.numGroups p.captureIndex).1 = acc.1
      have := replaceScan_count_zero acc.1 p.re p.repl p.numGroups p.captureIndex
        (acc.1.length + 1) 0 (by omega) hn
      rw [List.drop_zero] at this
      exact this
    rw [ih (pipelineStep acc p) (by omega), htext]

/-- C3 (amended): redaction is idempotent on already-clean inputs: if
the pipeline fired no pattern, the text is returned unchanged and a
second run fires nothing either.  Full idempotence fails (see the
counterexample): a replacement can expose a shape for an
earlier-ordered pattern to the second pass. -/
theorem claim_C3_redaction_idempotent_on_clean (t : Str)
    (h : (runPrivacyPipeline t).redactionCount = 0) :
    (runPrivacyPipeline t).cleanedText = t ∧
    (runPrivacyPipeline ((runPrivacyPipeline t).cleanedText)).redactionCount = 0 := by
  have h1 : (pipelineFold t).2.1 = 0 := by
    rw [runPrivacyPipeline] at h
    dsimp only at h
    exact h
  have h2 : (PATTERNS.foldl pipelineStep (t, 0, 0, [])).2.1 =
      ((t, 0, 0, []) : Str × Nat × Nat × List (Str × Str)).2.1 := by
    rw [pipelineFold] at h1
    exact h1
  have h3 := foldl_pipelineStep_text PATTERNS (t, 0, 0, []) h2
  have hct : (runPrivacyPipeline t).cleanedText = t := by
    rw [runPrivacyPipeline]
    dsimp only
    rw [pipelineFold]
    exact h3
  exact ⟨hct, by rw [hct]; exact h⟩

set_option maxRecDepth 1000000 in
set_option maxHeartbeats 2000000 in
/-- Witness for C3 on a clean input. -/
theorem claim_C3_witness :
    (runPrivacyPipeline ((runPrivacyPipeline (str "hello")).cleanedText)).redactionCount = 0 :=
  (claim_C3_redaction_idempotent_on_clean (str "hello") (by decide)).2

set_option maxRecDepth 1000000 in
set_option maxHeartbeats 4000000 in
/-- C3 counterexample: the project-code pattern's replacement exposes an
AWS-key shape that was glued to the code in the original text, so the
second pipeline run fires: redaction is not idempotent as claimed. -/
theorem claim_C3_counterexample :
    (runPrivacyPipeline ((runPrivacyPipeline
      (str "project code: A-123AKIAABCDEFGHIJKLMNOP")).cleanedText)).redactionCount ≠ 0 := by
  decide


theorem topKLoop_subset :
    ∀ (l : List Memory.SearchResult) (seen out : List Str) (limit : Nat) (x : Str),
      x ∈ Memory.topKLoop l seen out limit → x ∈ l.map (fun r => r.text) ∨ x ∈ out := by
  intro l
  induction l with
  | nil =>
    intro seen out limit x hx
    unfold Memory.topKLoop at hx
    right
    simpa using hx
  | cons item rest ih =>
    intro seen out limit x hx
    unfold Memory.topKLoop at hx
    by_cases hseen : item.text ∈ seen
    · rw [if_pos hseen] at hx
      rcases ih _ _ _ x hx with h | h
      · left; simp [h]
      · right; exact h
    · rw [if_neg hseen] at hx
      dsimp only at hx
      by_cases hlim : limit ≤ (item.text :: out).length
      · rw [if_pos hlim] at hx
        rw [List.mem_reverse] at hx
        rcases List.mem_cons.mp hx with h | h
        · left; simp [h]
        · right; exact h
      · rw [if_neg hlim] at hx
        rcases ih _ _ _ x hx with h | h
        · left; simp [h]
        · rcases List.mem_cons.mp h with h' | h'
          · left; simp [h']
          · right; exact h'

theorem mem_insertByScore (x a : Memory.SearchResult) (l : List Memory.SearchResult) :
    x ∈ Memory.insertByScore a l ↔ x = a ∨ x ∈ l := by
  induction l with
  | nil => simp [Memory.insertByScore]
  | cons y rest ih =>
    unfold Memory.insertByScore
    by_cases h : a.score ≤ y.score
    · rw [if_pos h]
      simp
    · rw [if_neg h]
      simp only [List.mem_cons, ih]
      tauto

theorem mem_sortByScore (x : Memory.SearchResult) (l : List Memory.SearchResult) :
    x ∈ Memory.sortByScore l ↔ x ∈ l := by
  induction l with
  | nil => simp [Memory.sortByScore]
  | cons y rest ih =>
    unfold Memory.sortByScore
    rw [mem_insertByScore, ih]
    simp

/-- `searchMemory` rewritten over the combined retrieved-result list. -/
theorem searchMemory_eq (scope : Memory.MemoryQueryScope) (strict vectorEmpty : Bool)
    (docRows factRows : List Memory.RawRow) (query : Str) (limit : Nat) :
    Memory.searchMemory scope strict vectorEmpty docRows factRows query limit =
      if vectorEmpty then []
      else
        Memory.topKLoop (Memory.sortByScore (
          let all := Memory.retrievedResults scope docRows factRows query
          let queryTokens := Memory.tokenizeQuery query
          if queryTokens.length > 0 then
            let lexicalMatches := all.filter (fun item => item.phraseMatch || item.keywordHits > 0)
            if lexicalMatches.length > 0 then lexicalMatches
            else
              match Memory.detectPersonalIntent query with
              | some personalIntent =>
                let intentMatches :=
                  all.filter (fun item => Memory.matchesPersonalIntent item.text personalIntent)
                if intentMatches.length > 0 then intentMatches
                else if strict then [] else all
              | none => if strict then [] else all
          else all)) [] [] limit := by
  unfold Memory.searchMemory Memory.retrievedResults
  by_cases hve : vectorEmpty
  · rw [if_pos hve, if_pos hve]
  · rw [if_neg hve, if_neg hve]
    by_cases hdoc : scope ≠ Memory.MemoryQueryScope.facts_only <;>
      by_cases hfac : scope ≠ Memory.MemoryQueryScope.documents_only <;>
        simp [hdoc, hfac]


theorem topKLoop_sort_nil (limit : Nat) :
    Memory.topKLoop (Memory.sortByScore []) [] [] limit = [] := by
  simp [Memory.sortByScore, Memory.topKLoop]

/-- C2 (amended): with strict-match mode enabled, every text returned by
`searchMemory` comes from a retrieved row with a phrase match or a
keyword hit, or — when no retrieved row has lexical overlap and the
query expresses a personal intent — from a row whose text matches the
intent's shape pattern; and when neither condition selects any row (in
strict mode), the result is empty.  (With strict-match disabled the
membership property fails; see the counterexample.) -/
theorem claim_C2_search_guardrails (scope : Memory.MemoryQueryScope)
    (strict vectorEmpty : Bool) (docRows factRows : List Memory.RawRow)
    (query : Str) (limit : Nat) (htok : Memory.tokenizeQuery query ≠ []) :
    (strict = true →
      ∀ t ∈ Memory.searchMemory scope strict vectorEmpty docRows factRows query limit,
        (∃ r ∈ Memory.retrievedResults scope docRows factRows query,
            r.text = t ∧ (r.phraseMatch = true ∨ 0 < r.keywordHits)) ∨
        ((∀ r ∈ Memory.retrievedResults scope docRows factRows query,
            r.phraseMatch = false ∧ r.keywordHits = 0) ∧
         ∃ personalIntent, Memory.detectPersonalIntent query = some personalIntent ∧
          ∃ r ∈ Memory.retrievedResults scope docRows factRows query,
            r.text = t ∧ Memory.matchesPersonalIntent r.text personalIntent = true)) ∧
    ((∀ r ∈ Memory.retrievedResults scope docRows factRows query,
        r.phraseMatch = false ∧ r.keywordHits = 0) →
      (∀ personalIntent, Memory.detectPersonalIntent query = some personalIntent →
        ∀ r ∈ Memory.retrievedResults scope docRows factRows query,
          Memory.matchesPersonalIntent r.text personalIntent = false) →
      strict = true →
      Memory.searchMemory scope strict vectorEmpty docRows factRows query limit = []) := by
  have hlen : (Memory.tokenizeQuery query).length > 0 := List.length_pos.mpr htok
  constructor
  · intro hstrict t ht
    rw [searchMemory_eq] at ht
    by_cases hve : vectorEmpty = true
    · rw [if_pos hve] at ht
      simp at ht
    · rw [if_neg hve] at ht
      dsimp only at ht
      rw [if_pos hlen] at ht
      by_cases hlm : ((Memory.retrievedResults scope docRows factRows query).filter
          (fun item => item.phraseMatch || item.keywordHits > 0)).length > 0
      · rw [if_pos hlm] at ht
        rcases topKLoop_subset _ _ _ _ _ ht with h | h
        · obtain ⟨r, hrmem, hrt⟩ := List.mem_map.mp h
          have hr2 := (mem_sortByScore r _).mp hrmem
          have hr3 := List.mem_filter.mp hr2
          left
          refine ⟨r, hr3.1, hrt, ?_⟩
          have := hr3.2
          simp only [Bool.or_eq_true, decide_eq_true_eq] at this
          exact this
        · simp at h
      · rw [if_neg hlm] at ht
        have hall : ∀ r ∈ Memory.retrievedResults scope docRows factRows query,
            r.phraseMatch = false ∧ r.keywordHits = 0 := by
          intro r hr
          have h0 : ((Memory.retrievedResults scope docRows factRows query).filter
              (fun item => item.phraseMatch || item.keywordHits > 0)) = [] :=
            List.length_eq_zero.mp (by omega)
          have hfr := List.filter_eq_nil_iff.mp h0 r hr
          simp only [Bool.or_eq_true, decide_eq_true_eq, not_or, Bool.not_eq_true] at hfr
          exact ⟨hfr.1, by omega⟩
        cases hdet : Memory.detectPersonalIntent query with
        | some personalIntent =>
          rw [hdet] at ht
          dsimp only at ht
          by_cases him : ((Memory.retrievedResults scope docRows factRows query).filter
              (fun item => Memory.matchesPersonalIntent item.text personalIntent)).length > 0
          · rw [if_pos him] at ht
            rcases topKLoop_subset _ _ _ _ _ ht with h | h
            · obtain ⟨r, hrmem, hrt⟩ := List.mem_map.mp h
              have hr2 := (mem_sortByScore r _).mp hrmem
              have hr3 := List.mem_filter.mp hr2
              right
              exact ⟨hall, personalIntent, rfl, r, hr3.1, hrt, hr3.2⟩
            · simp at h
          · rw [if_neg him] at ht
            subst hstrict
            rw [if_pos rfl] at ht
            rw [topKLoop_sort_nil] at ht
            simp at ht
        | none =>
          rw [hdet] at ht
          subst hstrict
          rw [if_pos rfl] at ht
          rw [topKLoop_sort_nil] at ht
          simp at ht
  · intro hall hint hstrict
    rw [searchMemory_eq]
    by_cases hve : vectorEmpty = true
    · rw [if_pos hve]
    · rw [if_neg hve]
      dsimp only
      rw [if_pos hlen]
      have hlm0 : ((Memory.retrievedResults scope docRows factRows query).filter
          (fun item => item.phraseMatch || item.keywordHits > 0)) = [] := by
        refine List.filter_eq_nil_iff.mpr (fun r hr => ?_)
        have := hall r hr
        simp [this.1, this.2]
      rw [hlm0]
      rw [if_neg (by simp)]
      cases hdet : Memory.detectPersonalIntent query with
      | some personalIntent =>
        dsimp only
        have him0 : ((Memory.retrievedResults scope docRows factRows query).filter
            (fun item => Memory.matchesPersonalIntent item.text personalIntent)) = [] := by
          refine List.filter_eq_nil_iff.mpr (fun r hr => ?_)
          simpa using hint personalIntent hdet r hr
        rw [him0]
        rw [if_neg (by simp)]
        subst hstrict
        rw [if_pos rfl]
        exact topKLoop_sort_nil limit
      | none =>
        subst hstrict
        rw [if_pos rfl]
        exact topKLoop_sort_nil limit


set_option maxRecDepth 1000000 in
set_option maxHeartbeats 2000000 in
/-- C2 counterexample: with strict-match disabled (a supported
configuration), `searchMemory` returns a vector-only match that has no
lexical overlap with the query while the query expresses no personal
intent, so the claimed membership property fails as stated. -/
theorem claim_C2_counterexample :
    Memory.searchMemory Memory.MemoryQueryScope.hybrid false false
      [{ text := str "zzz", distance := some 0 }] [] (str "hello") 3 = [str "zzz"] ∧
    Memory.tokenizeQuery (str "hello") ≠ [] ∧
    Memory.detectPersonalIntent (str "hello") = none ∧
    ∀ r ∈ Memory.retrievedResults Memory.MemoryQueryScope.hybrid
        [{ text := str "zzz", distance := some 0 }] [] (str "hello"),
      r.phraseMatch = false ∧ r.keywordHits = 0 := by decide

set_option maxRecDepth 1000000 in
set_option maxHeartbeats 2000000 in
/-- Witness for C2 on a personal-intent retrieval (scenario 5 of the
specification: the stored `JOHN DOE` fact is returned for `name`). -/
theorem claim_C2_witness :
    Memory.tokenizeQuery (str "name") ≠ [] ∧
    ∀ t ∈ Memory.searchMemory Memory.MemoryQueryScope.hybrid true false []
        [{ text := str "JOHN DOE", distance := some 0 }] (str "name") 3,
      (∃ r ∈ Memory.retrievedResults Memory.MemoryQueryScope.hybrid []
          [{ text := str "JOHN DOE", distance := some 0 }] (str "name"),
          r.text = t ∧ (r.phraseMatch = true ∨ 0 < r.keywordHits)) ∨
      ((∀ r ∈ Memory.retrievedResults Memory.MemoryQueryScope.hybrid []
          [{ text := str "JOHN DOE", distance := some 0 }] (str "name"),
          r.phraseMatch = false ∧ r.keywordHits = 0) ∧
       ∃ personalIntent, Memory.detectPersonalIntent (str "name") = some personalIntent ∧
        ∃ r ∈ Memory.retrievedResults Memory.MemoryQueryScope.hybrid []
            [{ text := str "JOHN DOE", distance := some 0 }] (str "name"),
          r.text = t ∧ Memory.matchesPersonalIntent r.text personalIntent = true) :=
  ⟨by decide,
   (claim_C2_search_guardrails Memory.MemoryQueryScope.hybrid true false []
      [{ text := str "JOHN DOE", distance := some 0 }] (str "name") 3 (by decide)).1 rfl⟩


/-! ### Whitespace-normalization lemmas

`normalizeLine` is invariant under a preceding `jsTrim`; proved via the
decomposition of a string into its non-whitespace runs (`wordsOf`). -/

theorem jsTrim_eq (s : Str) : jsTrim s = trimBack (s.dropWhile isWsCode) := rfl

theorem dropWhile_eq_self_of_ws_false (m : Str)
    (h : ∀ d ∈ m, isWsCode d = false) : m.dropWhile isWsCode = m := by
  cases m with
  | nil => rfl
  | cons d rest =>
    exact List.dropWhile_cons_of_neg (by simp [h d (by simp)])

theorem trimBack_eq_self_of_ws_false (m : Str)
    (h : ∀ d ∈ m, isWsCode d = false) : trimBack m = m := by
  unfold trimBack
  rw [dropWhile_eq_self_of_ws_false m.reverse (fun d hd => h d (List.mem_reverse.mp hd))]
  exact List.reverse_reverse m

theorem trimBack_append (m n : Str) :
    trimBack (m ++ n) = if trimBack n = [] then trimBack m else m ++ trimBack n := by
  unfold trimBack
  rw [List.reverse_append, List.dropWhile_append]
  by_cases h : (n.reverse.dropWhile isWsCode).isEmpty
  · rw [if_pos h]
    rw [if_pos (by rw [List.isEmpty_iff] at h; rw [h]; rfl)]
  · rw [if_neg h]
    rw [if_neg (by
      intro hc
      apply h
      rw [List.isEmpty_iff]
      have : (n.reverse.dropWhile isWsCode).reverse.reverse = List.reverse [] := by
        rw [hc]
      simpa using this)]
    rw [List.reverse_append, List.reverse_reverse]

theorem collapseWsGo_cons (b : Bool) (c : Nat) (rest : Str) :
    collapseWsGo b (c :: rest) =
      if isWsCode c then
        (if b then collapseWsGo true rest else 32 :: collapseWsGo true rest)
      else c :: collapseWsGo false rest := rfl

theorem collapseWsGo_true (s : Str) :
    collapseWsGo true s = collapseWsGo false (s.dropWhile isWsCode) := by
  induction s with
  | nil => rfl
  | cons c rest ih =>
    rw [collapseWsGo_cons]
    by_cases h : isWsCode c
    · rw [if_pos h, if_pos rfl, List.dropWhile_cons_of_pos h, ih]
    · rw [if_neg h, List.dropWhile_cons_of_neg h, collapseWsGo_cons, if_neg h]

theorem collapseWs_dropWhile_head (u : Str) :
    ∀ d ∈ (collapseWs (u.dropWhile isWsCode)).take 1, isWsCode d = false := by
  cases hu : u.dropWhile isWsCode with
  | nil => simp [collapseWs, collapseWsGo]
  | cons d rest =>
    have hd : isWsCode d = false := by
      have := List.head_dropWhile_not isWsCode (l := u)
      rw [hu] at this
      simpa using this
    unfold collapseWs
    rw [collapseWsGo_cons, if_neg (by simp [hd])]
    simpa using hd

theorem dropWhile_collapseWs_dropWhile (u : Str) :
    (collapseWs (u.dropWhile isWsCode)).dropWhile isWsCode =
      collapseWs (u.dropWhile isWsCode) := by
  cases hc : collapseWs (u.dropWhile isWsCode) with
  | nil => rfl
  | cons d rest =>
    have hd := collapseWs_dropWhile_head u
    rw [hc] at hd
    exact List.dropWhile_cons_of_neg (by simp [hd d (by simp)])

theorem wordsOf_cons (c : Nat) (rest : Str) :
    wordsOf (c :: rest) =
      if isWsCode c then wordsOf rest
      else (c :: rest.takeWhile (fun d => ¬ isWsCode d)) ::
        wordsOf (rest.dropWhile (fun d => ¬ isWsCode d)) := by
  rw [wordsOf]

theorem wordsOf_dropWhile (u : Str) :
    wordsOf (u.dropWhile isWsCode) = wordsOf u := by
  induction u with
  | nil => rfl
  | cons c rest ih =>
    by_cases h : isWsCode c
    · rw [List.dropWhile_cons_of_pos h, ih, wordsOf_cons, if_pos h]
    · rw [List.dropWhile_cons_of_neg h]

theorem wordsOf_eq_nil_iff (u : Str) :
    wordsOf u = [] ↔ ∀ d ∈ u, isWsCode d = true := by
  induction u with
  | nil => simp [wordsOf]
  | cons c rest ih =>
    rw [wordsOf_cons]
    by_cases h : isWsCode c
    · rw [if_pos h]
      simp [ih, h]
    · rw [if_neg h]
      simp [h]

theorem collapseWsGo_false_append_run (w : Str) (t : Str)
    (hw : ∀ d ∈ w, isWsCode d = false) :
    collapseWsGo false (w ++ t) = w ++ collapseWsGo false t := by
  induction w with
  | nil => rfl
  | cons c rest ih =>
    have hc : isWsCode c = false := hw c (by simp)
    rw [List.cons_append, collapseWsGo_cons, if_neg (by simp [hc])]
    rw [ih (fun d hd => hw d (by simp [hd]))]
    rfl


theorem wordsOf_nil : wordsOf [] = [] := by rw [wordsOf]

theorem wordsOf_ne_nil : ∀ (n : Nat) (u : Str), u.length ≤ n → ∀ w ∈ wordsOf u, w ≠ [] := by
  intro n
  induction n with
  | zero =>
    intro u hu w hw
    rw [List.eq_nil_of_length_eq_zero (Nat.le_zero.mp hu)] at hw
    rw [wordsOf_nil] at hw
    simp at hw
  | succ m ih =>
    intro u hu w hw
    cases u with
    | nil => rw [wordsOf_nil] at hw; simp at hw
    | cons c rest =>
      rw [wordsOf_cons] at hw
      by_cases hc : isWsCode c
      · rw [if_pos hc] at hw
        refine ih rest ?_ w hw
        simp at hu
        omega
      · rw [if_neg hc] at hw
        rcases List.mem_cons.mp hw with h | h
        · simp [h]
        · refine ih (rest.dropWhile (fun d => ¬ isWsCode d)) ?_ w h
          have := (List.dropWhile_suffix (l := rest)
            (fun d => ¬ isWsCode d)).sublist.length_le
          simp at hu
          omega

theorem joinWith_wordsOf_ne_nil (u : Str) (h : wordsOf u ≠ []) :
    joinWith [32] (wordsOf u) ≠ [] := by
  cases hw : wordsOf u with
  | nil => exact absurd hw h
  | cons w ws =>
    have hwne : w ≠ [] := wordsOf_ne_nil u.length u le_rfl w (by rw [hw]; simp)
    cases ws with
    | nil => simpa [joinWith] using hwne
    | cons w2 ws2 =>
      unfold joinWith
      simp [hwne]

theorem takeDrop_append_ws (t : Str) (ht : ∀ d ∈ t, isWsCode d = true) (m : Str) :
    (m ++ t).takeWhile (fun d => ¬ isWsCode d) = m.takeWhile (fun d => ¬ isWsCode d) ∧
    (m ++ t).dropWhile (fun d => ¬ isWsCode d) =
      m.dropWhile (fun d => ¬ isWsCode d) ++ t := by
  induction m with
  | nil =>
    simp only [List.nil_append, List.takeWhile_nil, List.dropWhile_nil]
    cases t with
    | nil => simp
    | cons d rest =>
      have hd := ht d (by simp)
      constructor
      · exact List.takeWhile_cons_of_neg (by simp [hd])
      · exact List.dropWhile_cons_of_neg (by simp [hd])
  | cons e m' ih =>
    by_cases he : isWsCode e
    · constructor
      · rw [List.cons_append, List.takeWhile_cons_of_neg (by simp [he]),
          List.takeWhile_cons_of_neg (by simp [he])]
      · rw [List.cons_append, List.dropWhile_cons_of_neg (by simp [he]),
          List.dropWhile_cons_of_neg (by simp [he]), List.cons_append]
    · constructor
      · rw [List.cons_append, List.takeWhile_cons_of_pos (by simp [he]),
          List.takeWhile_cons_of_pos (by simp [he]), ih.1]
      · rw [List.cons_append, List.dropWhile_cons_of_pos (by simp [he]),
          List.dropWhile_cons_of_pos (by simp [he]), ih.2]

theorem wordsOf_append_ws (t : Str) (ht : ∀ d ∈ t, isWsCode d = true) :
    ∀ (n : Nat) (m : Str), m.length ≤ n → wordsOf (m ++ t) = wordsOf m := by
  intro n
  induction n with
  | zero =>
    intro m hm
    rw [List.eq_nil_of_length_eq_zero (Nat.le_zero.mp hm)]
    rw [List.nil_append, wordsOf_nil]
    exact (wordsOf_eq_nil_iff t).mpr ht
  | succ k ih =>
    intro m hm
    cases m with
    | nil =>
      rw [List.nil_append, wordsOf_nil]
      exact (wordsOf_eq_nil_iff t).mpr ht
    | cons c m' =>
      rw [List.cons_append, wordsOf_cons, wordsOf_cons]
      by_cases hc : isWsCode c
      · rw [if_pos hc, if_pos hc]
        refine ih m' ?_
        simp at hm
        omega
      · rw [if_neg hc, if_neg hc]
        rw [(takeDrop_append_ws t ht m').1, (takeDrop_append_ws t ht m').2]
        congr 1
        refine ih (m'.dropWhile (fun d => ¬ isWsCode d)) ?_
        have := (List.dropWhile_suffix (l := m')
          (fun d => ¬ isWsCode d)).sublist.length_le
        simp at hm
        omega

theorem trimBack_decomposition (v : Str) :
    ∃ t, v = trimBack v ++ t ∧ ∀ d ∈ t, isWsCode d = true := by
  refine ⟨(v.reverse.takeWhile isWsCode).reverse, ?_, ?_⟩
  · unfold trimBack
    rw [← List.reverse_append, List.takeWhile_append_dropWhile, List.reverse_reverse]
  · intro d hd
    exact List.mem_takeWhile_imp (List.mem_reverse.mp hd)

theorem wordsOf_trimBack (v : Str) : wordsOf (trimBack v) = wordsOf v := by
  obtain ⟨t, hv, ht⟩ := trimBack_decomposition v
  conv_rhs => rw [hv]
  exact (wordsOf_append_ws t ht (trimBack v).length (trimBack v) le_rfl).symm

theorem wordsOf_jsTrim (y : Str) : wordsOf (jsTrim y) = wordsOf y := by
  rw [jsTrim_eq, wordsOf_trimBack, wordsOf_dropWhile]


theorem trim_collapse_eq_joinWith :
    ∀ (n : Nat) (s : Str), s.length ≤ n →
      jsTrim (collapseWs s) = joinWith [32] (wordsOf s) := by
  intro n
  induction n with
  | zero =>
    intro s hs
    rw [List.eq_nil_of_length_eq_zero (Nat.le_zero.mp hs), wordsOf_nil]
    rfl
  | succ m ih =>
    intro s hs
    cases s with
    | nil => rw [wordsOf_nil]; rfl
    | cons c rest =>
      by_cases hc : isWsCode c
      · have h1 : collapseWs (c :: rest) = 32 :: collapseWs (rest.dropWhile isWsCode) := by
          unfold collapseWs
          rw [collapseWsGo_cons, if_pos hc, if_neg (by simp), collapseWsGo_true]
        have h2 : jsTrim ((32 : Nat) :: collapseWs (rest.dropWhile isWsCode)) =
            jsTrim (collapseWs (rest.dropWhile isWsCode)) := by
          rw [jsTrim_eq, jsTrim_eq, List.dropWhile_cons_of_pos (by decide)]
        rw [h1, h2, ih (rest.dropWhile isWsCode) (by
          have := (List.dropWhile_suffix (p := isWsCode) (l := rest)).sublist.length_le
          simp at hs
          omega)]
        rw [wordsOf_dropWhile, wordsOf_cons, if_pos hc]
      · have hw'ne : ∀ d ∈ rest.takeWhile (fun d => ¬ isWsCode d), isWsCode d = false := by
          intro d hd
          simpa using List.mem_takeWhile_imp hd
        have h1 : collapseWs (c :: rest) =
            c :: (rest.takeWhile (fun d => ¬ isWsCode d) ++
              collapseWsGo false (rest.dropWhile (fun d => ¬ isWsCode d))) := by
          unfold collapseWs
          rw [collapseWsGo_cons, if_neg hc]
          congr 1
          conv_lhs => rw [← List.takeWhile_append_dropWhile (p := fun d => ¬ isWsCode d) (l := rest)]
          exact collapseWsGo_false_append_run _ _ hw'ne
        rw [h1, wordsOf_cons, if_neg hc, jsTrim_eq, List.dropWhile_cons_of_neg hc]
        cases hr'c : rest.dropWhile (fun d => ¬ isWsCode d) with
        | nil =>
          rw [wordsOf_nil]
          have hz : collapseWsGo false ([] : Str) = [] := rfl
          rw [hz, List.append_nil]
          have hself : trimBack (c :: rest.takeWhile (fun d => ¬ isWsCode d)) =
              c :: rest.takeWhile (fun d => ¬ isWsCode d) := by
            refine trimBack_eq_self_of_ws_false _ ?_
            intro d hd
            rcases List.mem_cons.mp hd with h | h
            · rw [h]; simpa using hc
            · exact hw'ne d h
          rw [hself]
          rfl
        | cons d r'' =>
          have hd : isWsCode d = true := by
            have := List.head_dropWhile_not (fun d => ¬ isWsCode d) (l := rest)
            rw [hr'c] at this
            simpa using this
          have h2 : collapseWsGo false (d :: r'') =
              32 :: collapseWs (r''.dropWhile isWsCode) := by
            rw [collapseWsGo_cons, if_pos hd, if_neg (by simp), collapseWsGo_true]
            rfl
          have h3 : wordsOf (d :: r'') = wordsOf r'' := by
            rw [wordsOf_cons, if_pos hd]
          rw [h2, h3]
          by_cases hnil : wordsOf r'' = []
          · rw [hnil]
            have hdw : r''.dropWhile isWsCode = [] := by
              rw [List.dropWhile_eq_nil_iff]
              exact fun d' hd' => (wordsOf_eq_nil_iff r'').mp hnil d' hd'
            rw [hdw]
            have hz : collapseWs ([] : Str) = [] := rfl
            rw [hz]
            rw [← List.cons_append, trimBack_append]
            rw [if_pos (by decide)]
            have hself : trimBack (c :: rest.takeWhile (fun d => ¬ isWsCode d)) =
                c :: rest.takeWhile (fun d => ¬ isWsCode d) := by
              refine trimBack_eq_self_of_ws_false _ ?_
              intro d' hd'
              rcases List.mem_cons.mp hd' with h | h
              · rw [h]; simpa using hc
              · exact hw'ne d' h
            rw [hself]
            rfl
          · have hZ : trimBack (collapseWs (r''.dropWhile isWsCode)) =
                joinWith [32] (wordsOf r'') := by
              have hlen : (r''.dropWhile isWsCode).length ≤ m := by
                have h4 := (List.dropWhile_suffix (p := isWsCode) (l := r'')).sublist.length_le
                have h5 := (List.dropWhile_suffix (p := fun d => ¬ isWsCode d)
                  (l := rest)).sublist.length_le
                rw [hr'c] at h5
                simp at h5 hs
                omega
              have hih := ih (r''.dropWhile isWsCode) hlen
              rw [wordsOf_dropWhile, jsTrim_eq, dropWhile_collapseWs_dropWhile r''] at hih
              exact hih
            have hZne : trimBack (collapseWs (r''.dropWhile isWsCode)) ≠ [] := by
              rw [hZ]
              exact joinWith_wordsOf_ne_nil r'' hnil
            rw [show (32 : Nat) :: collapseWs (r''.dropWhile isWsCode) =
              [32] ++ collapseWs (r''.dropWhile isWsCode) from rfl]
            rw [← List.cons_append, trimBack_append, trimBack_append, if_neg hZne,
              if_neg (by simp)]
            rw [hZ]
            cases hws : wordsOf r'' with
            | nil => exact absurd hws hnil
            | cons w0 ws0 =>
              show c :: rest.takeWhile (fun d => ¬ isWsCode d) ++
                  ([32] ++ joinWith [32] (w0 :: ws0)) =
                joinWith [32] ((c :: rest.takeWhile (fun d => ¬ isWsCode d)) :: w0 :: ws0)
              simp [joinWith, List.append_assoc]

theorem normalizeLine_jsTrim (y : Str) :
    Orch.normalizeLine (jsTrim y) = Orch.normalizeLine y := by
  unfold Orch.normalizeLine
  rw [trim_collapse_eq_joinWith (jsTrim y).length (jsTrim y) le_rfl,
    trim_collapse_eq_joinWith y.length y le_rfl, wordsOf_jsTrim]


theorem bestLineFold_go_mem (score : Str → Nat) :
    ∀ (lines : List Str) (b : Int) (l0 : Option Str) (L : Str),
      (lines.foldl (fun acc line =>
        let (bestScore, bestLine) := acc
        if bestScore < (score line : Int) then ((score line : Int), some line)
        else (bestScore, bestLine)) (b, l0)).2 = some L →
      l0 = some L ∨ L ∈ lines := by
  intro lines
  induction lines with
  | nil => exact fun b l0 L h => Or.inl h
  | cons x xs ih =>
    intro b l0 L h
    rw [List.foldl_cons] at h
    dsimp only at h
    by_cases hx : b < (score x : Int)
    · rw [if_pos hx] at h
      rcases ih _ _ _ h with he | hm
      · exact Or.inr (Option.some.inj he ▸ List.mem_cons_self x xs)
      · exact Or.inr (List.mem_cons_of_mem _ hm)
    · rw [if_neg hx] at h
      rcases ih _ _ _ h with he | hm
      · exact Or.inl he
      · exact Or.inr (List.mem_cons_of_mem _ hm)

theorem bestLineFold_mem (lines : List Str) (score : Str → Nat) (L : Str)
    (h : (Orch.bestLineFold lines score).2 = some L) : L ∈ lines := by
  rcases bestLineFold_go_mem score lines (-1) none L h with he | hm
  · exact absurd he (by simp)
  · exact hm

theorem pickExtractiveLine_mem (context query : Str) (L : Str)
    (h : Orch.pickExtractiveLine context query = some L) :
    L ∈ Orch.contextLines context := by
  simp only [Orch.pickExtractiveLine] at h
  split at h
  · exact absurd h (by simp)
  · split at h
    · split at h
      · split at h
        · rename_i hfind
          exact Option.some.inj h ▸ List.mem_of_find?_eq_some hfind
        · exact List.mem_of_mem_head? h
      · exact List.mem_of_mem_head? h
    · split at h
      · exact absurd h (by simp)
      · exact bestLineFold_mem _ _ _ h

theorem isGroundedAnswer_exists (mode t context : Str)
    (h : Orch.isGroundedAnswer mode t context = true) :
    ∃ line ∈ context.splitOn 10,
      (if mode = str "exact"
       then Orch.normalizeLine (Orch.stripIndexPrefix line) = Orch.normalizeLine t
       else strIncludes (Orch.normalizeLine (Orch.stripIndexPrefix line))
         (Orch.normalizeLine t) = true) := by
  simp only [Orch.isGroundedAnswer] at h
  split at h
  · exact absurd h (by simp)
  · split at h
    · exact absurd h (by simp)
    · by_cases hm : mode = str "exact"
      · rw [if_pos hm, List.any_eq_true] at h
        obtain ⟨nl, hmem, hp⟩ := h
        rw [List.mem_filter] at hmem
        rw [List.mem_map] at hmem
        obtain ⟨⟨l, hl, hnl⟩, _⟩ := hmem
        refine ⟨l, hl, ?_⟩
        rw [if_pos hm, hnl]
        simpa using hp
      · rw [if_neg hm, List.any_eq_true] at h
        obtain ⟨nl, hmem, hp⟩ := h
        rw [List.mem_filter] at hmem
        rw [List.mem_map] at hmem
        obtain ⟨⟨l, hl, hnl⟩, _⟩ := hmem
        refine ⟨l, hl, ?_⟩
        rw [if_neg hm, hnl]
        exact hp

theorem contextLine_property (mode context : Str) (L answer : Str)
    (hmem : L ∈ Orch.contextLines context) (heq : L = answer) :
    ∃ line ∈ context.splitOn 10,
      (if mode = str "exact"
       then Orch.normalizeLine (Orch.stripIndexPrefix line) = Orch.normalizeLine answer
       else strIncludes (Orch.normalizeLine (Orch.stripIndexPrefix line))
         (Orch.normalizeLine answer) = true) := by
  subst heq
  unfold Orch.contextLines at hmem
  rw [List.mem_filter] at hmem
  rw [List.mem_map] at hmem
  obtain ⟨⟨l, hl, hLl⟩, _⟩ := hmem
  refine ⟨l, hl, ?_⟩
  by_cases hm : mode = str "exact"
  · rw [if_pos hm, ← hLl, normalizeLine_jsTrim]
  · rw [if_neg hm, ← hLl, normalizeLine_jsTrim]
    simp [strIncludes]


/-- C5: `enforceGrounding` returns the remote answer unchanged only if its
whitespace-normalized form equals (grounding mode `exact`) or occurs inside
(default `excerpt` mode) the normalized form of some line of the context;
when the trimmed answer is empty or equals the fixed fallback string, or the
grounding check rejects it, the result is the extractive line picked from the
context for the query, and when extraction yields no line the result is the
fallback string. -/
theorem claim_C5_grounding_enforcement (mode answer context query : Str) :
    (Orch.enforceGrounding mode answer context query = answer →
      answer ≠ Orch.FALLBACK_ANSWER →
      jsTrim answer ≠ [] →
      ∃ line ∈ context.splitOn 10,
        (if mode = str "exact"
         then Orch.normalizeLine (Orch.stripIndexPrefix line) = Orch.normalizeLine answer
         else strIncludes (Orch.normalizeLine (Orch.stripIndexPrefix line))
           (Orch.normalizeLine answer) = true)) ∧
    (jsTrim answer = [] →
      Orch.enforceGrounding mode answer context query =
        (Orch.pickExtractiveLine context query).getD Orch.FALLBACK_ANSWER) ∧
    (jsTrim answer = Orch.FALLBACK_ANSWER →
      Orch.enforceGrounding mode answer context query =
        (Orch.pickExtractiveLine context query).getD (jsTrim answer)) ∧
    (jsTrim answer ≠ [] → jsTrim answer ≠ Orch.FALLBACK_ANSWER →
      Orch.isGroundedAnswer mode (jsTrim answer) context = false →
      Orch.enforceGrounding mode answer context query =
        (Orch.pickExtractiveLine context query).getD Orch.FALLBACK_ANSWER) ∧
    (Orch.pickExtractiveLine context query = none →
      Orch.isGroundedAnswer mode (jsTrim answer) context = false →
      Orch.enforceGrounding mode answer context query = Orch.FALLBACK_ANSWER) := by
  refine ⟨?_, ?_, ?_, ?_, ?_⟩
  · intro hout hne hnz
    simp only [Orch.enforceGrounding] at hout
    rw [if_neg hnz] at hout
    by_cases hF : jsTrim answer = Orch.FALLBACK_ANSWER
    · rw [if_pos hF] at hout
      cases hpe : Orch.pickExtractiveLine context query with
      | none =>
        rw [hpe] at hout
        simp only [Option.getD_none] at hout
        exact absurd (hout ▸ hF) hne
      | some L =>
        rw [hpe] at hout
        simp only [Option.getD_some] at hout
        exact contextLine_property mode context L answer
          (pickExtractiveLine_mem context query L hpe) hout
    · rw [if_neg hF] at hout
      by_cases hg : Orch.isGroundedAnswer mode (jsTrim answer) context
      · have hex := isGroundedAnswer_exists mode (jsTrim answer) context hg
        rw [normalizeLine_jsTrim] at hex
        exact hex
      · rw [if_neg hg] at hout
        cases hpe : Orch.pickExtractiveLine context query with
        | none =>
          rw [hpe] at hout
          simp only [Option.getD_none] at hout
          exact absurd hout.symm hne
        | some L =>
          rw [hpe] at hout
          simp only [Option.getD_some] at hout
          exact contextLine_property mode context L answer
            (pickExtractiveLine_mem context query L hpe) hout
  · intro hz
    simp only [Orch.enforceGrounding]
    rw [if_pos hz]
  · intro hF
    simp only [Orch.enforceGrounding]
    rw [if_neg (by rw [hF]; decide), if_pos hF]
  · intro hnz hF hg
    simp only [Orch.enforceGrounding]
    rw [if_neg hnz, if_neg hF, if_neg (by simp [hg])]
  · intro hpe hg
    simp only [Orch.enforceGrounding]
    by_cases hz : jsTrim answer = []
    · rw [if_pos hz, hpe]
      rfl
    · rw [if_neg hz]
      by_cases hF : jsTrim answer = Orch.FALLBACK_ANSWER
      · rw [if_pos hF, hpe, Option.getD_none, hF]
      · rw [if_neg hF, if_neg (by simp [hg]), hpe]
        rfl


set_option maxRecDepth 1000000 in
set_option maxHeartbeats 4000000 in
/-- Witness for C5: a concrete ungrounded remote answer is replaced by the
extractive line selected from the context. -/
theorem claim_C5_witness :
    Orch.enforceGrounding (str "excerpt") (str "Ungrounded stuff")
      (str "[1] User likes to drink Black Coffee.") (str "What coffee do I like?") =
      (Orch.pickExtractiveLine (str "[1] User likes to drink Black Coffee.")
        (str "What coffee do I like?")).getD Orch.FALLBACK_ANSWER ∧
    Orch.enforceGrounding (str "excerpt") (str "Ungrounded stuff")
      (str "[1] User likes to drink Black Coffee.") (str "What coffee do I like?") =
      str "User likes to drink Black Coffee." := by
  have h := (claim_C5_grounding_enforcement (str "excerpt") (str "Ungrounded stuff")
    (str "[1] User likes to drink Black Coffee.") (str "What coffee do I like?")).2.2.2.1
    (by decide) (by decide) (by decide)
  refine ⟨h, ?_⟩
  rw [h]
  decide

end PMG
